import Mathlib

/-! # fort-go: the scan engine (`internal/scanner/scanner.go`) and `pkg/utils`

A shallow embedding of the scanner's pure and sequential code and of the
helpers `SanitizeInput` and `FormatDuration`, and the properties of them that
the specification states.

Conventions of the embedding

* A Go `string` is a Lean `String` (a sequence of Unicode code points; Go
  strings holding invalid UTF-8 are outside the model).
* A Go `int` is a Lean `Int`; where the source can overflow (the loop
  counter of `parsePortRange`) the 64-bit wrap-around is written out.
  Counters that are bounded by the length of a slice are `Nat`.
* Everything the code asks of the outside world (the wall clock, the
  network, the standard library's URL parser, the iteration order of a Go
  map, the scheduler's interleaving of goroutines) is a field of `Env`.
-/

set_option linter.unusedVariables false

namespace FortGo

/-! ## Data model (`pkg/models`) -/

/-- Modelled from the spec: the type `models.Severity`, whose declaration
(package `pkg/models`) is not among the sources. The scanner and the report
layer convert it with `string(vuln.Severity)`, so it is a string type. -/
abbrev Severity := String

/-- Modelled from the spec: severity string value `Critical`. -/
def models.Critical : Severity := "Critical"
/-- Modelled from the spec: severity string value `High`. -/
def models.High : Severity := "High"
/-- Modelled from the spec: severity string value `Medium`. -/
def models.Medium : Severity := "Medium"
/-- Modelled from the spec: severity string value `Low`. -/
def models.Low : Severity := "Low"
/-- Modelled from the spec: severity string value `Info`. -/
def models.Info : Severity := "Info"

/-- An instant of the wall clock (`time.Time`); `0` is Go's zero `time.Time`. -/
abbrev Time := Nat

/-- Modelled from the spec: the struct `models.Vulnerability` (package
`pkg/models` is not among the sources); the field names are the ones
`scanner.go` and `report.go` use. Every field defaults to Go's zero value.
The float field `CVSSScore`, which the scanner never sets, is left out. -/
structure Vulnerability where
  ID : String := ""
  Name : String := ""
  Description : String := ""
  Severity : Severity := ""
  Target : String := ""
  Location : String := ""
  Timestamp : Time := 0
  Exploitable : Bool := false
  CVEID : String := ""
  Remediation : String := ""
  References : List String := []
  Evidence : String := ""
  ExploitInfo : String := ""
  Exploited : Bool := false
deriving DecidableEq, Repr

/-- Modelled from the spec: the struct `models.ResultSummary` (five severity
counters plus the total). -/
structure ResultSummary where
  TotalVulnerabilities : Nat := 0
  CriticalCount : Nat := 0
  HighCount : Nat := 0
  MediumCount : Nat := 0
  LowCount : Nat := 0
  InfoCount : Nat := 0
deriving DecidableEq, Repr

/-- Modelled from the spec: the struct `models.ScanResult`. `Duration` is the
string `time.Since(startTime).String()`. -/
structure ScanResult where
  Target : String := ""
  ScanType : String := ""
  StartTime : Time := 0
  EndTime : Time := 0
  Duration : String := ""
  Vulnerabilities : List Vulnerability := []
  Summary : ResultSummary := {}
deriving DecidableEq, Repr

/-! ## `calculateSummary` -/

/-- One iteration of the loop of `calculateSummary`: the `switch` on the
severity of `vuln`, cases tried in source order. -/
def calculateSummary.step (summary : ResultSummary) (vuln : Vulnerability) : ResultSummary :=
  if vuln.Severity = models.Critical then
    { summary with CriticalCount := summary.CriticalCount + 1 }
  else if vuln.Severity = models.High then
    { summary with HighCount := summary.HighCount + 1 }
  else if vuln.Severity = models.Medium then
    { summary with MediumCount := summary.MediumCount + 1 }
  else if vuln.Severity = models.Low then
    { summary with LowCount := summary.LowCount + 1 }
  else if vuln.Severity = models.Info then
    { summary with InfoCount := summary.InfoCount + 1 }
  else summary

/-- The function `calculateSummary` of `scanner.go`: the total is the length
of the slice, then one pass over the slice bumps a counter per finding. -/
def calculateSummary (vulnerabilities : List Vulnerability) : ResultSummary :=
  vulnerabilities.foldl calculateSummary.step
    { TotalVulnerabilities := vulnerabilities.length }

/-- Number of findings of `vs` whose severity is `sev`. -/
def countSeverity (sev : Severity) (vs : List Vulnerability) : Nat :=
  vs.countP (fun v => decide (v.Severity = sev))

/-- Field-by-field sum of two summaries. -/
def ResultSummary.add (a b : ResultSummary) : ResultSummary :=
  { TotalVulnerabilities := a.TotalVulnerabilities + b.TotalVulnerabilities
    CriticalCount := a.CriticalCount + b.CriticalCount
    HighCount := a.HighCount + b.HighCount
    MediumCount := a.MediumCount + b.MediumCount
    LowCount := a.LowCount + b.LowCount
    InfoCount := a.InfoCount + b.InfoCount }

deriving instance DecidableEq for Except

/-! ## The Go standard library functions the scanner calls -/

/-- Go's `unicode.IsSpace`: the code points with the Unicode White_Space
property. -/
def unicode.IsSpace (c : Char) : Bool :=
  (0x09 ≤ c.toNat && c.toNat ≤ 0x0D) || c.toNat = 0x20 || c.toNat = 0x85 || c.toNat = 0xA0
    || c.toNat = 0x1680 || (0x2000 ≤ c.toNat && c.toNat ≤ 0x200A)
    || c.toNat = 0x2028 || c.toNat = 0x2029 || c.toNat = 0x202F || c.toNat = 0x205F
    || c.toNat = 0x3000

/-- Go's `strings.TrimSpace`: the string without its leading and trailing
white space. -/
def strings.TrimSpace (s : String) : String :=
  ⟨((s.data.dropWhile unicode.IsSpace).reverse.dropWhile unicode.IsSpace).reverse⟩

/-- The pieces of a character list between the occurrences of `sep`. -/
def strings.splitChars (sep : Char) : List Char → List (List Char)
  | [] => [[]]
  | c :: cs =>
    if c = sep then [] :: strings.splitChars sep cs
    else
      match strings.splitChars sep cs with
      | [] => [[c]]
      | piece :: pieces => (c :: piece) :: pieces

/-- Go's `strings.Split(s, sep)` for a separator of one character (both
calls in the source pass such a separator, `","` and `"-"`): the substrings
between the separators, one more than there are separators. -/
def strings.Split (s : String) (sep : Char) : List String :=
  (strings.splitChars sep s.data).map String.mk

/-- Go's `strings.Contains(s, substr)` for a substring of one character. -/
def strings.Contains (s : String) (c : Char) : Bool :=
  s.data.elem c

/-- Go's `strings.HasPrefix`. -/
def strings.HasPrefix (s pre : String) : Bool :=
  pre.data.isPrefixOf s.data

/-- Value of an ASCII decimal digit. -/
def strconv.digit (c : Char) : Option Nat :=
  if 48 ≤ c.toNat ∧ c.toNat ≤ 57 then some (c.toNat - 48) else none

/-- Value of a string of decimal digits read after the value `acc`; `none`
when a character is not a digit. -/
def strconv.digits : List Char → Nat → Option Nat
  | [], acc => some acc
  | c :: cs, acc =>
    match strconv.digit c with
    | none => none
    | some d => strconv.digits cs (acc * 10 + d)

/-- Go's `strconv.Atoi` on a 64-bit platform: an optional sign followed by
one or more decimal digits, whose value fits an `int`; `none` is the error
result (a syntax error or a value out of range). -/
def strconv.Atoi (s : String) : Option Int :=
  match s.data with
  | [] => none
  | c :: cs =>
    if c = '-' then
      if cs = [] then none
      else
        match strconv.digits cs 0 with
        | none => none
        | some n => if n ≤ 2 ^ 63 then some (-(n : Int)) else none
    else if c = '+' then
      if cs = [] then none
      else
        match strconv.digits cs 0 with
        | none => none
        | some n => if n < 2 ^ 63 then some (n : Int) else none
    else
      match strconv.digits (c :: cs) 0 with
      | none => none
      | some n => if n < 2 ^ 63 then some (n : Int) else none

/-- Go's `strconv.Itoa` (and the verb `%d` of `fmt`): the decimal text of an
integer. -/
def strconv.Itoa (i : Int) : String :=
  toString i

/-- The value a Go `int` (64 bits, two's complement) holds after an
arithmetic result `x`. -/
def wrapInt64 (x : Int) : Int :=
  (x + 2 ^ 63) % 2 ^ 64 - 2 ^ 63

/-! ## `parsePortRange` -/

/-- The loop `for i := start; i <= end; i++ { ports = append(ports, i) }` of
`parsePortRange`, run for at most `fuel` tests of its condition; `none` when
the fuel does not suffice. -/
def parsePortRange.loop : Nat → Int → Int → List Int → Option (List Int)
  | 0, _, _, _ => none
  | fuel + 1, i, stop, ports =>
    if i ≤ stop then parsePortRange.loop fuel (wrapInt64 (i + 1)) stop (ports ++ [i])
    else some ports

/-- The loop `for _, r := range ranges` of `parsePortRange`, with the slice
`ports` built so far. An error is the message of the Go `error`. -/
def parsePortRange.segments (fuel : Nat) : List String → List Int → Option (Except String (List Int))
  | [], ports => some (.ok ports)
  | r :: ranges, ports =>
    let r := strings.TrimSpace r
    if strings.Contains r '-' then
      match strings.Split r '-' with
      | [part0, part1] =>
        match strconv.Atoi (strings.TrimSpace part0) with
        | none => some (.error ("invalid start port: " ++ part0))
        | some start =>
          match strconv.Atoi (strings.TrimSpace part1) with
          | none => some (.error ("invalid end port: " ++ part1))
          | some stop =>
            match parsePortRange.loop fuel start stop ports with
            | none => none
            | some ports => parsePortRange.segments fuel ranges ports
      | _ => some (.error ("invalid port range: " ++ r))
    else
      match strconv.Atoi r with
      | none => some (.error ("invalid port: " ++ r))
      | some port => parsePortRange.segments fuel ranges (ports ++ [port])

/-- The function `parsePortRange` of `scanner.go`. Each range loop may test
its condition `fuel` times; the result is `none` when that does not suffice
(the Go function has not returned), `some (.error msg)` when it returns the
error `msg` and a nil slice, `some (.ok ports)` when it returns `ports`. -/
def parsePortRange (fuel : Nat) (portRange : String) : Option (Except String (List Int)) :=
  parsePortRange.segments fuel (strings.Split portRange ',') []

/-! ### The port grammar, as the specification words it -/

/-- A segment of a port specification: a single integer or a range. -/
inductive Segment where
  | single (n : Int)
  | range (start stop : Int)
deriving DecidableEq, Repr

/-- The ports a segment stands for: `[n]`, or the ascending run
`start, start+1, ..., stop` (both bounds included). -/
def Segment.expansion : Segment → List Int
  | .single n => [n]
  | .range start stop => (List.range (stop + 1 - start).toNat).map (fun (k : Nat) => start + (k : Int))

/-- The cardinality the specification gives a segment: `1` for a single
integer, `end-start+1` for a range. -/
def Segment.cardinality : Segment → Int
  | .single _ => 1
  | .range start stop => stop - start + 1

/-- Whether the loop that expands a segment ends: a range loop ends when
its upper bound is below the largest `int`, `2^63 - 1` (toward that bound
the counter wraps around and the condition `i <= end` never fails). -/
def Segment.ends : Segment → Bool
  | .single _ => true
  | .range _ stop => decide (stop < 2 ^ 63 - 1)

/-- A string is a valid integer when `strconv.Atoi` accepts it. -/
def validInteger (s : String) : Bool :=
  (strconv.Atoi s).isSome

/-- The segment a comma-separated piece denotes under the grammar
`INT | INT '-' INT` (white space around the piece and around the bounds of
a range is ignored), `none` when it denotes none. -/
def segmentOf (piece : String) : Option Segment :=
  let r := strings.TrimSpace piece
  if strings.Contains r '-' then
    match strings.Split r '-' with
    | [a, b] =>
      match strconv.Atoi (strings.TrimSpace a), strconv.Atoi (strings.TrimSpace b) with
      | some start, some stop => some (.range start stop)
      | _, _ => none
    | _ => none
  else (strconv.Atoi r).map Segment.single

/-- A comma-separated piece is offending when, after trimming white space,
it is not a valid integer (no hyphen in it) or it is a hyphenated piece that
does not split on the hyphen into exactly two parts that are both (white
space around them trimmed) valid integers. -/
def offending (piece : String) : Bool :=
  let r := strings.TrimSpace piece
  if strings.Contains r '-' then
    match strings.Split r '-' with
    | [a, b] => !(validInteger (strings.TrimSpace a) && validInteger (strings.TrimSpace b))
    | _ => true
  else !validInteger r

/-- The error message `msg` names the offending token of the trimmed piece
`r`: the piece itself when it is not an integer or has not exactly one
hyphen, else the first of its two parts that is not an integer. -/
inductive NamesOffendingToken (r : String) : String → Prop where
  | port : strings.Contains r '-' = false → strconv.Atoi r = none →
      NamesOffendingToken r ("invalid port: " ++ r)
  | portRange : strings.Contains r '-' = true → (strings.Split r '-').length ≠ 2 →
      NamesOffendingToken r ("invalid port range: " ++ r)
  | startPort (a b : String) : strings.Contains r '-' = true → strings.Split r '-' = [a, b] →
      strconv.Atoi (strings.TrimSpace a) = none →
      NamesOffendingToken r ("invalid start port: " ++ a)
  | endPort (a b : String) : strings.Contains r '-' = true → strings.Split r '-' = [a, b] →
      strconv.Atoi (strings.TrimSpace a) ≠ none → strconv.Atoi (strings.TrimSpace b) = none →
      NamesOffendingToken r ("invalid end port: " ++ b)

/-! ## The outside world -/

/-- Response headers (`http.Header`, a `map[string][]string`), as the list
of the map's entries; the keys are in canonical MIME form, as `net/http`
stores them. -/
abbrev Header := List (String × List String)

/-- Go's `headers[key]` with the comma-ok form: the entry, if there is one. -/
def Header.index (headers : Header) (key : String) : Option (List String) :=
  headers.lookup key

/-- Go's `http.Header.Get` for a key already in canonical form (the source
only asks for `"Server"`): the first value of the key, `""` if there is none. -/
def Header.Get (headers : Header) (key : String) : String :=
  match headers.lookup key with
  | some (v :: _) => v
  | _ => ""

/-- The table `securityHeaders` of `checkHTTPHeaders`. -/
def securityHeaders : List (String × String) :=
  [ ("Strict-Transport-Security", "SECURITY-HEADER-HSTS-MISSING"),
    ("X-Content-Type-Options", "SECURITY-HEADER-X-CONTENT-TYPE-OPTIONS-MISSING"),
    ("X-Frame-Options", "SECURITY-HEADER-X-FRAME-OPTIONS-MISSING"),
    ("Content-Security-Policy", "SECURITY-HEADER-CSP-MISSING"),
    ("X-XSS-Protection", "SECURITY-HEADER-XSS-PROTECTION-MISSING") ]

/-- The table `headerDescriptions` of `checkHTTPHeaders`. -/
def headerDescriptions : List (String × String) :=
  [ ("Strict-Transport-Security", "HTTP Strict Transport Security header is missing"),
    ("X-Content-Type-Options", "X-Content-Type-Options header is missing"),
    ("X-Frame-Options", "X-Frame-Options header is missing"),
    ("Content-Security-Policy", "Content-Security-Policy header is missing"),
    ("X-XSS-Protection", "X-XSS-Protection header is missing") ]

/-- The table `headerRemediations` of `checkHTTPHeaders`. -/
def headerRemediations : List (String × String) :=
  [ ("Strict-Transport-Security", "Add 'Strict-Transport-Security' header with appropriate max-age"),
    ("X-Content-Type-Options", "Add 'X-Content-Type-Options: nosniff' header"),
    ("X-Frame-Options", "Add 'X-Frame-Options: DENY' or 'X-Frame-Options: SAMEORIGIN' header"),
    ("Content-Security-Policy", "Implement a Content Security Policy appropriate for your application"),
    ("X-XSS-Protection", "Add 'X-XSS-Protection: 1; mode=block' header") ]

/-- Go's `m[key]` on a `map[string]string`: the value, `""` for a key the
map lacks. -/
def mapIndex (m : List (String × String)) (key : String) : String :=
  (m.lookup key).getD ""

/-- The places of the source that read the wall clock with `time.Now()`. -/
inductive ClockSite where
  | networkStart | networkEnd
  | openPort (p : Int)
  | serviceFinding (p : Int) (k : Nat)
  | webStart | webEnd
  | connectionError
  | missingHeader (header : String)
  | serverHeader
  | sqlInjection | xss | outdatedSoftware
  | fullStart | fullEnd
deriving DecidableEq, Repr

/-- What the scanner asks of the outside world. -/
structure Env where
  /-- The reading `time.Now()` gives at a place of the source. -/
  now : ClockSite → Time
  /-- The text `time.Since(startTime).String()`. -/
  since : Time → String
  /-- Whether `url.ParseRequestURI` accepts a string. -/
  parseRequestURI : String → Bool
  /-- The call `client.Get(target)` of `WebScan`, whose `CheckRedirect`
  refuses a redirect once ten requests have been made: the response headers,
  or the text of the error. -/
  webGet : String → Except String Header
  /-- The call `client.Get(url)` of `detectService`. -/
  serviceGet : String → Except String Header
  /-- Whether `net.DialTimeout("tcp", addr, ...)` connects. -/
  dial : String → Bool
  /-- The order in which `range securityHeaders` visits the entries of the
  map (Go leaves it unspecified). -/
  rangeSecurityHeaders : List (String × String)
  /-- A `range` over a map visits every entry once. -/
  rangeSecurityHeaders_perm : rangeSecurityHeaders.Perm securityHeaders
  /-- The slice the collecting goroutine of `NetworkScan` has built when
  `done` fires, given the bound `threads` and, per port, the findings its
  worker sends; `none` when the goroutines never get there. -/
  collect : Int → List (List Vulnerability) → Option (List Vulnerability)

/-- Go's `net.JoinHostPort`: a host holding a colon (taken for a literal
IPv6 address) is put in square brackets. -/
def net.JoinHostPort (host port : String) : String :=
  if host.data.elem ':' then "[" ++ host ++ "]:" ++ port
  else host ++ ":" ++ port

/-! ## Service detection and classification -/

/-- The table `commonPorts` of `detectService`. -/
def commonPorts : List (Int × String) :=
  [ (21, "FTP"), (22, "SSH"), (23, "Telnet"), (25, "SMTP"), (53, "DNS"), (80, "HTTP"),
    (110, "POP3"), (143, "IMAP"), (443, "HTTPS"), (465, "SMTPS"), (993, "IMAPS"),
    (995, "POP3S"), (3306, "MySQL"), (3389, "RDP"), (5432, "PostgreSQL"),
    (8080, "HTTP-Proxy") ]

/-- The function `detectService` of `scanner.go`. -/
def detectService (env : Env) (target : String) (port : Int) (timeout : Int) : String :=
  match commonPorts.lookup port with
  | some service => service
  | none =>
    if port = 80 ∨ port = 8080 ∨ port = 443 ∨ port = 8443 then
      let scheme := if port = 443 ∨ port = 8443 then "https" else "http"
      let url := scheme ++ "://" ++ target ++ ":" ++ strconv.Itoa port
      match env.serviceGet url with
      | .ok resp =>
        (commonPorts.lookup port).getD "" ++ " (" ++ Header.Get resp "Server" ++ ")"
      | .error _ => "Unknown"
    else "Unknown"

/-- The function `checkServiceVulnerabilities` of `scanner.go`. -/
def checkServiceVulnerabilities (service : String) (port : Int) : List Vulnerability :=
  if service = "FTP" then
    [ { ID := "FTP-ANONYMOUS-ACCESS"
        Name := "FTP Anonymous Access"
        Description := "FTP server might allow anonymous access"
        Severity := models.Medium
        Exploitable := true
        Remediation := "Disable anonymous FTP access if not required"
        References := ["https://cve.mitre.org/cgi-bin/cvename.cgi?name=CVE-1999-0497"] } ]
  else if service = "SSH" then
    if port ≠ 22 then
      [ { ID := "SSH-NON-STANDARD-PORT"
          Name := "SSH on Non-Standard Port"
          Description := "SSH service running on non-standard port " ++ strconv.Itoa port
          Severity := models.Info
          Exploitable := false } ]
    else []
  else if service = "HTTP" ∨ service = "HTTPS" then
    [ { ID := "WEB-SERVER-EXPOSED"
        Name := "Web Server Exposed"
        Description := "Web server detected on port " ++ strconv.Itoa port
        Severity := models.Info
        Exploitable := true
        Remediation := "Ensure the web server is properly secured and only necessary ports are exposed" } ]
  else []

/-! ## Web checks -/

/-- The finding `checkHTTPHeaders` builds for a security header the response
lacks; `entry` is the header and its identifier, as `securityHeaders` pairs
them. -/
def checkHTTPHeaders.missing (env : Env) (target : String) (entry : String × String) :
    Vulnerability :=
  { ID := entry.2
    Name := "Missing " ++ entry.1 ++ " Header"
    Description := mapIndex headerDescriptions entry.1
    Severity := models.Low
    Target := target
    Location := "HTTP Headers"
    Timestamp := env.now (.missingHeader entry.1)
    Exploitable := false
    Remediation := mapIndex headerRemediations entry.1 }

/-- The finding `checkHTTPHeaders` builds for the `Server` header value
`server`. -/
def checkHTTPHeaders.leak (env : Env) (target server : String) : Vulnerability :=
  { ID := "INFO-SERVER-HEADER-LEAK"
    Name := "Server Header Information Leakage"
    Description := "Server header discloses technology information: " ++ server
    Severity := models.Info
    Target := target
    Location := "HTTP Headers"
    Timestamp := env.now .serverHeader
    Exploitable := false
    Remediation := "Configure your web server to suppress or modify the Server header" }

/-- One iteration of the loop `for header, id := range securityHeaders` of
`checkHTTPHeaders`. -/
def checkHTTPHeaders.step (env : Env) (headers : Header) (target : String)
    (vulns : List Vulnerability) (entry : String × String) : List Vulnerability :=
  match Header.index headers entry.1 with
  | none => vulns ++ [checkHTTPHeaders.missing env target entry]
  | some _ => vulns

/-- The function `checkHTTPHeaders` of `scanner.go`. -/
def checkHTTPHeaders (env : Env) (headers : Header) (target : String) : List Vulnerability :=
  let vulns := env.rangeSecurityHeaders.foldl (checkHTTPHeaders.step env headers target) []
  let server := Header.Get headers "Server"
  if server ≠ "" then vulns ++ [checkHTTPHeaders.leak env target server]
  else vulns

/-- The function `checkCommonWebVulnerabilities` of `scanner.go` (its
parameter `client` is never used and is left out). -/
def checkCommonWebVulnerabilities (env : Env) (target : String) (recursive : Bool)
    (threads : Int) (verbose : Bool) : List Vulnerability :=
  [ { ID := "WEB-SQL-INJECTION-POSSIBLE"
      Name := "Possible SQL Injection"
      Description := "Input parameters on the website may be vulnerable to SQL injection attacks"
      Severity := models.High
      Target := target
      Location := "/login"
      Timestamp := env.now .sqlInjection
      Exploitable := true
      Evidence := "Error messages containing SQL syntax were observed"
      Remediation := "Use parameterized queries or prepared statements"
      References := ["https://owasp.org/www-community/attacks/SQL_Injection"] },
    { ID := "WEB-XSS-REFLECTED"
      Name := "Reflected Cross-Site Scripting (XSS)"
      Description := "Some parameters on the website may be vulnerable to reflected XSS attacks"
      Severity := models.Medium
      Target := target
      Location := "/search"
      Timestamp := env.now .xss
      Exploitable := true
      Evidence := "Injected script was executed when included in search parameter"
      Remediation := "Implement proper output encoding and content security policy"
      References := ["https://owasp.org/www-community/attacks/xss/"] },
    { ID := "WEB-OUTDATED-SOFTWARE"
      Name := "Outdated Web Server Software"
      Description := "The web server appears to be running an outdated version"
      Severity := models.Medium
      Target := target
      Location := "/"
      Timestamp := env.now .outdatedSoftware
      Exploitable := false
      Remediation := "Update the web server software to the latest stable version" } ]

/-! ## The three scans -/

/-- The body of the goroutine `NetworkScan` starts for the port `p`: the
findings it sends on the channel `results`, in the order it sends them. -/
def NetworkScan.worker (env : Env) (target : String) (timeout : Int) (p : Int) :
    List Vulnerability :=
  let addr := net.JoinHostPort target (strconv.Itoa p)
  if env.dial addr then
    let vuln : Vulnerability :=
      { ID := "OPEN-PORT-" ++ strconv.Itoa p
        Name := "Open Port " ++ strconv.Itoa p
        Description := "Port " ++ strconv.Itoa p ++ " is open on target " ++ target
        Severity := models.Info
        Target := target
        Location := "tcp/" ++ strconv.Itoa p
        Timestamp := env.now (.openPort p)
        Exploitable := false }
    let service := detectService env target p timeout
    if service ≠ "" then
      let vuln := { vuln with
        Description := "Port " ++ strconv.Itoa p ++ " is open on target " ++ target
          ++ " with service: " ++ service }
      let vulns := checkServiceVulnerabilities service p
      vulns.enum.map (fun kv =>
          { kv.2 with
            Target := target
            Location := "tcp/" ++ strconv.Itoa p
            Timestamp := env.now (.serviceFinding p kv.1) })
        ++ [vuln]
    else [vuln]
  else []

/-- The function `NetworkScan` of `scanner.go`. What the goroutines do
between the parsing of the ports and `<-done` is `env.collect`. The result
is `none` when the Go function does not return. -/
def NetworkScan (env : Env) (fuel : Nat) (target portRange : String) (timeout threads : Int)
    (verbose : Bool) : Option (Except String ScanResult) :=
  let startTime := env.now .networkStart
  match parsePortRange fuel portRange with
  | none => none
  | some (.error err) => some (.error err)
  | some (.ok ports) =>
    match env.collect threads (ports.map (NetworkScan.worker env target timeout)) with
    | none => none
    | some vulnerabilities =>
      let summary := calculateSummary vulnerabilities
      some (.ok
        { Target := target
          ScanType := "network"
          StartTime := startTime
          EndTime := env.now .networkEnd
          Duration := env.since startTime
          Vulnerabilities := vulnerabilities
          Summary := summary })

/-- The URL validation at the head of `WebScan`: the target the scan goes on
with, or the error it returns. -/
def WebScan.validate (env : Env) (target : String) : Except String String :=
  if env.parseRequestURI target then .ok target
  else if !strings.HasPrefix target "http" then
    let target := "http://" ++ target
    if env.parseRequestURI target then .ok target
    else .error ("invalid URL: " ++ target)
  else .error ("invalid URL: " ++ target)

/-- The finding `WebScan` builds when the GET request fails with the error
`err`. -/
def WebScan.connectionError (env : Env) (target err : String) : Vulnerability :=
  { ID := "WEB-CONNECTION-ERROR"
    Name := "Web Server Connection Error"
    Description := "Failed to connect to web server: " ++ err
    Severity := models.Medium
    Target := target
    Location := "/"
    Timestamp := env.now .connectionError
    Exploitable := false }

/-- The function `WebScan` of `scanner.go`. -/
def WebScan (env : Env) (target : String) (recursive : Bool) (timeout threads : Int)
    (verbose : Bool) : Except String ScanResult :=
  let startTime := env.now .webStart
  match WebScan.validate env target with
  | .error err => .error err
  | .ok target =>
    let vulnerabilities : List Vulnerability :=
      match env.webGet target with
      | .error err =>
        [WebScan.connectionError env target err]
      | .ok header =>
        let headerVulns := checkHTTPHeaders env header target
        let webVulns := checkCommonWebVulnerabilities env target recursive threads verbose
        headerVulns ++ webVulns
    let summary := calculateSummary vulnerabilities
    .ok
      { Target := target
        ScanType := "web"
        StartTime := startTime
        EndTime := env.now .webEnd
        Duration := env.since startTime
        Vulnerabilities := vulnerabilities
        Summary := summary }

/-- The target `FullScan` hands to `WebScan`. -/
def FullScan.webTarget (target : String) : String :=
  if !strings.HasPrefix target "http" then "http://" ++ target else target

/-- The function `FullScan` of `scanner.go`; `none` when it does not return. -/
def FullScan (env : Env) (fuel : Nat) (target portRange : String) (timeout threads : Int)
    (recursive : Bool) (verbose : Bool) : Option (Except String ScanResult) :=
  let startTime := env.now .fullStart
  match NetworkScan env fuel target portRange timeout threads verbose with
  | none => none
  | some (.error err) => some (.error ("network scan failed: " ++ err))
  | some (.ok networkResult) =>
    let webTarget := FullScan.webTarget target
    let webVulnerabilities : List Vulnerability :=
      match WebScan env webTarget recursive timeout threads verbose with
      | .ok webResult => webResult.Vulnerabilities
      | .error _ => []
    let vulnerabilities := networkResult.Vulnerabilities ++ webVulnerabilities
    let summary := calculateSummary vulnerabilities
    some (.ok
      { Target := target
        ScanType := "full"
        StartTime := startTime
        EndTime := env.now .fullEnd
        Duration := env.since startTime
        Vulnerabilities := vulnerabilities
        Summary := summary })


/-! ## `pkg/utils` -/

/-- Go's `strings.ReplaceAll(s, old, new)` for an `old` of one character:
every occurrence of `old` gives way to `new`. -/
def strings.ReplaceAll (s : String) (old : Char) (new : String) : String :=
  ⟨s.data.flatMap (fun c => if c = old then new.data else [c])⟩

/-- The backtick, code point 96. -/
def backtick : Char := Char.ofNat 96

/-- The backslash, code point 92. -/
def backslash : Char := Char.ofNat 92

/-- The function `SanitizeInput` of `utils.go`. -/
def SanitizeInput (input : String) : String :=
  let sanitized := strings.ReplaceAll input ';' ""
  let sanitized := strings.ReplaceAll sanitized '&' ""
  let sanitized := strings.ReplaceAll sanitized '|' ""
  let sanitized := strings.ReplaceAll sanitized '>' ""
  let sanitized := strings.ReplaceAll sanitized '<' ""
  let sanitized := strings.ReplaceAll sanitized '$' ""
  let sanitized := strings.ReplaceAll sanitized backtick ""
  let sanitized := strings.ReplaceAll sanitized backslash ""
  strings.TrimSpace sanitized

/-- The characters `SanitizeInput` deletes. -/
def dangerous : List Char :=
  [';', '&', '|', '>', '<', '$', backtick, backslash]

/-- The input without the dangerous characters, every other character kept
in order. -/
def withoutDangerous (input : String) : String :=
  ⟨input.data.filter (fun c => !decide (c ∈ dangerous))⟩

/-- Go's `time.Second`, a `time.Duration`: a number of nanoseconds in an
`int64`. -/
def time.Second : Int := 1000000000

/-- Go's `time.Minute`. -/
def time.Minute : Int := 60 * time.Second

/-- Go's `time.Hour`. -/
def time.Hour : Int := 60 * time.Minute

/-- Go's `lessThanHalf(x, y)` of package `time`:
`uint64(x)+uint64(x) < uint64(y)`. -/
def time.lessThanHalf (x y : Int) : Bool :=
  decide ((x % 2 ^ 64 + x % 2 ^ 64) % 2 ^ 64 < y % 2 ^ 64)

/-- Go's `Duration.Round`: `d` rounded to the nearest multiple of `m`,
halfway values away from zero; the largest or smallest duration when the
result does not fit. -/
def time.Round (d m : Int) : Int :=
  if m ≤ 0 then d
  else
    let r := Int.tmod d m
    if d < 0 then
      let r := -r
      if time.lessThanHalf r m then wrapInt64 (d + r)
      else
        let d1 := wrapInt64 (d - m + r)
        if d1 < d then d1 else -2 ^ 63
    else
      if time.lessThanHalf r m then wrapInt64 (d - r)
      else
        let d1 := wrapInt64 (d + m - r)
        if d1 > d then d1 else 2 ^ 63 - 1

/-- The function `formatTime` of `utils.go`. -/
def formatTime (value : Int) (unit : String) : String :=
  if value = 1 then "1 " ++ unit
  else strconv.Itoa value ++ " " ++ unit ++ "s"

/-- The function `FormatDuration` of `utils.go`; `/` on durations is Go's
truncated division. -/
def FormatDuration (d : Int) : String :=
  let d := time.Round d time.Second
  let h := Int.tdiv d time.Hour
  let d := wrapInt64 (d - wrapInt64 (h * time.Hour))
  let m := Int.tdiv d time.Minute
  let d := wrapInt64 (d - wrapInt64 (m * time.Minute))
  let s := Int.tdiv d time.Second
  if h > 0 then
    formatTime h "hour" ++ ", " ++ formatTime m "minute" ++ ", " ++ formatTime s "second"
  else if m > 0 then
    formatTime m "minute" ++ ", " ++ formatTime s "second"
  else formatTime s "second"

/-- The text of one component of a duration as the specification words it:
the value, then the unit, in the singular exactly when the value is 1 and
with a trailing "s" for every other value. -/
def unitText (value : Int) (unit : String) : String :=
  strconv.Itoa value ++ " " ++ unit ++ (if value = 1 then "" else "s")

/-- Go's `validHeaderFieldByte` of `net/textproto`: the token characters of
RFC 7230, that is the ASCII letters and digits and
``! # $ % & ' * + - . ^ _ ` | ~``. -/
def textproto.validHeaderFieldByte (c : Char) : Bool :=
  (48 ≤ c.toNat && c.toNat ≤ 57) || (65 ≤ c.toNat && c.toNat ≤ 90)
    || (97 ≤ c.toNat && c.toNat ≤ 122)
    || [33, 35, 36, 37, 38, 39, 42, 43, 45, 46, 94, 95, 96, 124, 126].elem c.toNat

/-- The second loop of Go's `canonicalMIMEHeaderKey`: a letter is put in
upper case when `upper` holds (at the start and after a hyphen) and in lower
case otherwise. -/
def textproto.canonicalChars : Bool → List Char → List Char
  | _, [] => []
  | upper, c :: cs =>
    let c :=
      if upper && (97 ≤ c.toNat && c.toNat ≤ 122) then Char.ofNat (c.toNat - 32)
      else if !upper && (65 ≤ c.toNat && c.toNat ≤ 90) then Char.ofNat (c.toNat + 32)
      else c
    c :: textproto.canonicalChars (c = '-') cs

/-- Go's `textproto.CanonicalMIMEHeaderKey`, the form under which `net/http`
stores the keys of a response: the first letter and any letter after a hyphen
in upper case, the rest in lower case; a key that holds a character that is
not a token character is returned as it is. -/
def textproto.CanonicalMIMEHeaderKey (s : String) : String :=
  if s.data.all textproto.validHeaderFieldByte then ⟨textproto.canonicalChars true s.data⟩
  else s

/-- The header set `net/http` builds from a response that carries all five
security headers: each under its canonical key. -/
def Header.allFive : Header :=
  [ ("Strict-Transport-Security", ["max-age=31536000"]),
    ("X-Content-Type-Options", ["nosniff"]),
    ("X-Frame-Options", ["DENY"]),
    ("Content-Security-Policy", ["default-src https:"]),
    ("X-Xss-Protection", ["1; mode=block"]) ]

/-! ## Properties the specification names -/

/-- The invariant of a `ScanResult`: the total of its summary is the number
of its findings and each severity counter is the number of its findings of
that severity. -/
def ScanResult.summaryMatches (r : ScanResult) : Prop :=
  r.Summary.TotalVulnerabilities = r.Vulnerabilities.length ∧
  r.Summary.CriticalCount = countSeverity models.Critical r.Vulnerabilities ∧
  r.Summary.HighCount = countSeverity models.High r.Vulnerabilities ∧
  r.Summary.MediumCount = countSeverity models.Medium r.Vulnerabilities ∧
  r.Summary.LowCount = countSeverity models.Low r.Vulnerabilities ∧
  r.Summary.InfoCount = countSeverity models.Info r.Vulnerabilities

/-- A world for the examples: the host answers on the ports 22 and 80, its
web server sends no security header and `Server: nginx/1.18`, the service
probe fails, maps are visited in source order and the collector receives the
findings port by port. -/
def Env.sample : Env where
  now := fun _ => 1
  since := fun _ => "1s"
  parseRequestURI := fun s => strings.HasPrefix s "http://"
  webGet := fun _ => .ok [("Server", ["nginx/1.18"])]
  serviceGet := fun _ => .error "connection refused"
  dial := fun addr => addr = "host:22" || addr = "host:80"
  rangeSecurityHeaders := securityHeaders
  rangeSecurityHeaders_perm := List.Perm.refl _
  collect := fun _ sent => some sent.flatten

/-- A world in which the service probe of `detectService` succeeds and the
response says `Server: nginx`; the rest is as in `Env.sample`. -/
def Env.nginx : Env :=
  { Env.sample with serviceGet := fun _ => .ok [("Server", ["nginx"])] }

/-- Whether the response lacks the security header of a table entry. -/
def checkHTTPHeaders.absent (headers : Header) (entry : String × String) : Bool :=
  (Header.index headers entry.1).isNone

/-- The findings the specification expects of `checkHTTPHeaders`, in the
order of the table: one per security header the response lacks, then the
`Server` finding when `server`, the first value of the `Server` header, is
not empty. -/
def checkHTTPHeaders.expected (env : Env) (headers : Header) (target : String) :
    List Vulnerability :=
  (securityHeaders.filter (checkHTTPHeaders.absent headers)).map
      (checkHTTPHeaders.missing env target)
    ++ (if Header.Get headers "Server" ≠ ""
        then [checkHTTPHeaders.leak env target (Header.Get headers "Server")] else [])

/-- A world in which the web server cannot be reached: every GET of `WebScan`
fails; the rest is as in `Env.sample`. -/
def Env.offline : Env :=
  { Env.sample with webGet := fun _ => .error "dial tcp: connection refused" }

/-- The findings the web phase adds to a full scan: those of the result of
`WebScan`, none when `WebScan` returns an error. -/
def FullScan.webFindings (webResult : Except String ScanResult) : List Vulnerability :=
  match webResult with
  | .ok w => w.Vulnerabilities
  | .error _ => []

/-- A world whose URL parser accepts, as Go's `url.ParseRequestURI` does,
absolute URLs of the schemes http and ftp, and whose web server cannot be
reached; the rest is as in `Env.sample`. -/
def Env.anyScheme : Env :=
  { Env.offline with
    parseRequestURI := fun s => strings.HasPrefix s "http://" || strings.HasPrefix s "ftp://" }

/-- The "Open Port" finding a worker of `NetworkScan` sends for the open
port `p` once the service is named. -/
def NetworkScan.openPort (env : Env) (target : String) (p : Int) (service : String) :
    Vulnerability :=
  { ID := "OPEN-PORT-" ++ strconv.Itoa p
    Name := "Open Port " ++ strconv.Itoa p
    Description := "Port " ++ strconv.Itoa p ++ " is open on target " ++ target
      ++ " with service: " ++ service
    Severity := models.Info
    Target := target
    Location := "tcp/" ++ strconv.Itoa p
    Timestamp := env.now (.openPort p)
    Exploitable := false }

/-! ## Theorems -/

/-! ### `calculateSummary` -/

/-- Each severity constant differs from the other four. -/
theorem models.severities_distinct :
    models.Critical ≠ models.High ∧ models.Critical ≠ models.Medium ∧
    models.Critical ≠ models.Low ∧ models.Critical ≠ models.Info ∧
    models.High ≠ models.Medium ∧ models.High ≠ models.Low ∧ models.High ≠ models.Info ∧
    models.Medium ≠ models.Low ∧ models.Medium ≠ models.Info ∧ models.Low ≠ models.Info := by
  decide

/-- What one iteration of the loop of `calculateSummary` does to the six
fields. -/
theorem calculateSummary.step_fields (s : ResultSummary) (v : Vulnerability) :
    (calculateSummary.step s v).TotalVulnerabilities = s.TotalVulnerabilities ∧
    (calculateSummary.step s v).CriticalCount
      = s.CriticalCount + (if v.Severity = models.Critical then 1 else 0) ∧
    (calculateSummary.step s v).HighCount
      = s.HighCount + (if v.Severity = models.High then 1 else 0) ∧
    (calculateSummary.step s v).MediumCount
      = s.MediumCount + (if v.Severity = models.Medium then 1 else 0) ∧
    (calculateSummary.step s v).LowCount
      = s.LowCount + (if v.Severity = models.Low then 1 else 0) ∧
    (calculateSummary.step s v).InfoCount
      = s.InfoCount + (if v.Severity = models.Info then 1 else 0) := by
  obtain ⟨hCH, hCM, hCL, hCI, hHM, hHL, hHI, hML, hMI, hLI⟩ := models.severities_distinct
  unfold calculateSummary.step
  by_cases c1 : v.Severity = models.Critical
  · rw [if_pos c1]; simp [c1, hCH, hCM, hCL, hCI]
  rw [if_neg c1]
  by_cases c2 : v.Severity = models.High
  · rw [if_pos c2]; simp [c2, hCH.symm, hHM, hHL, hHI]
  rw [if_neg c2]
  by_cases c3 : v.Severity = models.Medium
  · rw [if_pos c3]; simp [c3, hCM.symm, hHM.symm, hML, hMI]
  rw [if_neg c3]
  by_cases c4 : v.Severity = models.Low
  · rw [if_pos c4]; simp [c4, hCL.symm, hHL.symm, hML.symm, hLI]
  rw [if_neg c4]
  by_cases c5 : v.Severity = models.Info
  · rw [if_pos c5]; simp [c5, hCI.symm, hHI.symm, hMI.symm, hLI.symm]
  rw [if_neg c5]; simp [c1, c2, c3, c4, c5]

/-- Counting the findings of a severity, one finding at a time. -/
theorem countSeverity_cons (sev : Severity) (v : Vulnerability) (vs : List Vulnerability) :
    countSeverity sev (v :: vs) = countSeverity sev vs + (if v.Severity = sev then 1 else 0) := by
  unfold countSeverity
  rw [List.countP_cons]
  simp

/-- The loop of `calculateSummary` leaves the total alone and adds to each
counter the number of findings of that severity. -/
theorem calculateSummary.foldl_step (vs : List Vulnerability) (s : ResultSummary) :
    (vs.foldl calculateSummary.step s).TotalVulnerabilities = s.TotalVulnerabilities ∧
    (vs.foldl calculateSummary.step s).CriticalCount
      = s.CriticalCount + countSeverity models.Critical vs ∧
    (vs.foldl calculateSummary.step s).HighCount = s.HighCount + countSeverity models.High vs ∧
    (vs.foldl calculateSummary.step s).MediumCount
      = s.MediumCount + countSeverity models.Medium vs ∧
    (vs.foldl calculateSummary.step s).LowCount = s.LowCount + countSeverity models.Low vs ∧
    (vs.foldl calculateSummary.step s).InfoCount = s.InfoCount + countSeverity models.Info vs := by
  induction vs generalizing s with
  | nil => simp [countSeverity]
  | cons v vs ih =>
    simp only [List.foldl_cons]
    obtain ⟨h0, h1, h2, h3, h4, h5⟩ := ih (calculateSummary.step s v)
    obtain ⟨g0, g1, g2, g3, g4, g5⟩ := calculateSummary.step_fields s v
    rw [h0, h1, h2, h3, h4, h5, g0, g1, g2, g3, g4, g5]
    simp only [countSeverity_cons]
    refine ⟨trivial, ?_, ?_, ?_, ?_, ?_⟩ <;> omega

/-- The summary of a list: its length and, per severity, the number of its
findings of that severity. -/
theorem calculateSummary_eq (vs : List Vulnerability) :
    calculateSummary vs =
      { TotalVulnerabilities := vs.length
        CriticalCount := countSeverity models.Critical vs
        HighCount := countSeverity models.High vs
        MediumCount := countSeverity models.Medium vs
        LowCount := countSeverity models.Low vs
        InfoCount := countSeverity models.Info vs } := by
  obtain ⟨h0, h1, h2, h3, h4, h5⟩ :=
    calculateSummary.foldl_step vs { TotalVulnerabilities := vs.length }
  unfold calculateSummary
  generalize vs.foldl calculateSummary.step { TotalVulnerabilities := vs.length } = r at *
  cases r
  simp_all

/-- A result of `NetworkScan` carries the summary of its own findings. -/
theorem NetworkScan_summary {env : Env} {fuel : Nat} {target portRange : String}
    {timeout threads : Int} {verbose : Bool} {r : ScanResult}
    (h : NetworkScan env fuel target portRange timeout threads verbose = some (.ok r)) :
    r.Summary = calculateSummary r.Vulnerabilities := by
  unfold NetworkScan at h
  split at h
  · exact absurd h (by simp)
  · exact absurd h (by simp)
  · split at h
    · exact absurd h (by simp)
    · simp only [Option.some.injEq, Except.ok.injEq] at h
      subst h
      rfl

/-- A result of `WebScan` carries the summary of its own findings. -/
theorem WebScan_summary {env : Env} {target : String} {recursive : Bool}
    {timeout threads : Int} {verbose : Bool} {r : ScanResult}
    (h : WebScan env target recursive timeout threads verbose = .ok r) :
    r.Summary = calculateSummary r.Vulnerabilities := by
  unfold WebScan at h
  split at h
  · exact absurd h (by simp)
  · simp only [Except.ok.injEq] at h
    subst h
    rfl

/-- A result of `FullScan` carries the summary of its own findings. -/
theorem FullScan_summary {env : Env} {fuel : Nat} {target portRange : String}
    {timeout threads : Int} {recursive verbose : Bool} {r : ScanResult}
    (h : FullScan env fuel target portRange timeout threads recursive verbose = some (.ok r)) :
    r.Summary = calculateSummary r.Vulnerabilities := by
  unfold FullScan at h
  split at h
  · exact absurd h (by simp)
  · exact absurd h (by simp)
  · simp only [Option.some.injEq, Except.ok.injEq] at h
    subst h
    rfl

/-- A result whose summary is computed from its findings has the invariant. -/
theorem ScanResult.summaryMatches_of_eq {r : ScanResult}
    (h : r.Summary = calculateSummary r.Vulnerabilities) : r.summaryMatches := by
  unfold ScanResult.summaryMatches
  rw [h, calculateSummary_eq]
  exact ⟨rfl, rfl, rfl, rfl, rfl, rfl⟩

/-- C1. For every list of findings `calculateSummary` returns the length of
the list as total and, per severity, the number of findings of that severity
as counter; hence every `ScanResult` that `NetworkScan`, `WebScan` or
`FullScan` returns has a summary that matches its finding list. -/
theorem calculateSummary_counts :
    (∀ vs : List Vulnerability,
      (calculateSummary vs).TotalVulnerabilities = vs.length ∧
      (calculateSummary vs).CriticalCount
        = vs.countP (fun v => decide (v.Severity = models.Critical)) ∧
      (calculateSummary vs).HighCount = vs.countP (fun v => decide (v.Severity = models.High)) ∧
      (calculateSummary vs).MediumCount
        = vs.countP (fun v => decide (v.Severity = models.Medium)) ∧
      (calculateSummary vs).LowCount = vs.countP (fun v => decide (v.Severity = models.Low)) ∧
      (calculateSummary vs).InfoCount = vs.countP (fun v => decide (v.Severity = models.Info))) ∧
    (∀ (env : Env) (fuel : Nat) (target portRange : String) (timeout threads : Int)
        (verbose : Bool) (r : ScanResult),
      NetworkScan env fuel target portRange timeout threads verbose = some (.ok r) →
        r.summaryMatches) ∧
    (∀ (env : Env) (target : String) (recursive : Bool) (timeout threads : Int)
        (verbose : Bool) (r : ScanResult),
      WebScan env target recursive timeout threads verbose = .ok r → r.summaryMatches) ∧
    (∀ (env : Env) (fuel : Nat) (target portRange : String) (timeout threads : Int)
        (recursive verbose : Bool) (r : ScanResult),
      FullScan env fuel target portRange timeout threads recursive verbose = some (.ok r) →
        r.summaryMatches) := by
  refine ⟨fun vs => ?_, ?_, ?_, ?_⟩
  · rw [calculateSummary_eq]
    exact ⟨rfl, rfl, rfl, rfl, rfl, rfl⟩
  · intro env fuel target portRange timeout threads verbose r h
    exact ScanResult.summaryMatches_of_eq (NetworkScan_summary h)
  · intro env target recursive timeout threads verbose r h
    exact ScanResult.summaryMatches_of_eq (WebScan_summary h)
  · intro env fuel target portRange timeout threads recursive verbose r h
    exact ScanResult.summaryMatches_of_eq (FullScan_summary h)

/-- C1, at the full scan of `host` over the ports `20-22,80` in the sample
world: the scan returns a result, and the result has the invariant. -/
theorem calculateSummary_counts_witness :
    ∃ r, FullScan Env.sample 10 "host" "20-22,80" 1 4 false false = some (.ok r) ∧
      r.Vulnerabilities.length = 12 ∧ r.summaryMatches :=
  ⟨_, rfl, by decide,
    calculateSummary_counts.2.2.2 Env.sample 10 "host" "20-22,80" 1 4 false false _ rfl⟩

/-- The summary of a concatenation is the field-by-field sum of the
summaries. -/
theorem calculateSummary_append (a b : List Vulnerability) :
    calculateSummary (a ++ b) = (calculateSummary a).add (calculateSummary b) := by
  simp only [calculateSummary_eq, ResultSummary.add, countSeverity, List.countP_append,
    List.length_append]

/-- C2. The summary of a concatenated list is the field-by-field sum of the
summaries of the two lists; so when the network phase returns `n` and the web
phase returns `w`, `FullScan` returns the findings of `n` followed by those of
`w`, with a summary equal to the sum of the two sub-scan summaries. -/
theorem calculateSummary_additive :
    (∀ a b : List Vulnerability,
      calculateSummary (a ++ b) = (calculateSummary a).add (calculateSummary b)) ∧
    (∀ (env : Env) (fuel : Nat) (target portRange : String) (timeout threads : Int)
        (recursive verbose : Bool) (n w : ScanResult),
      NetworkScan env fuel target portRange timeout threads verbose = some (.ok n) →
      WebScan env (FullScan.webTarget target) recursive timeout threads verbose = .ok w →
      ∃ r, FullScan env fuel target portRange timeout threads recursive verbose = some (.ok r) ∧
        r.Vulnerabilities = n.Vulnerabilities ++ w.Vulnerabilities ∧
        r.Summary = n.Summary.add w.Summary) := by
  refine ⟨calculateSummary_append, ?_⟩
  intro env fuel target portRange timeout threads recursive verbose n w hn hw
  refine ⟨_, by unfold FullScan; rw [hn], ?_, ?_⟩
  · simp only [hw]
  · simp only [hw]
    rw [calculateSummary_append, NetworkScan_summary hn, WebScan_summary hw]

/-- C2, at the full scan of `host` over the ports `20-22,80` in the sample
world: both phases return, and the summary of the full scan is the sum of
theirs. -/
theorem calculateSummary_additive_witness :
    ∃ n w r, NetworkScan Env.sample 10 "host" "20-22,80" 1 4 false = some (.ok n) ∧
      WebScan Env.sample (FullScan.webTarget "host") false 1 4 false = .ok w ∧
      FullScan Env.sample 10 "host" "20-22,80" 1 4 false false = some (.ok r) ∧
      r.Vulnerabilities = n.Vulnerabilities ++ w.Vulnerabilities ∧
      r.Summary = n.Summary.add w.Summary := by
  obtain ⟨r, h1, h2, h3⟩ :=
    calculateSummary_additive.2 Env.sample 10 "host" "20-22,80" 1 4 false false _ _ rfl rfl
  exact ⟨_, _, r, rfl, rfl, h1, h2, h3⟩

/-! ### `parsePortRange` -/

/-- A Go `int` stays within 64 bits. -/
theorem wrapInt64_range (x : Int) : -2 ^ 63 ≤ wrapInt64 x ∧ wrapInt64 x < 2 ^ 63 := by
  unfold wrapInt64
  omega

/-- No wrap-around when the result fits. -/
theorem wrapInt64_of_fits {x : Int} (h1 : -2 ^ 63 ≤ x) (h2 : x < 2 ^ 63) : wrapInt64 x = x := by
  unfold wrapInt64
  omega

/-- What `strconv.Atoi` returns fits a Go `int`. -/
theorem strconv.Atoi_range {s : String} {n : Int} (h : strconv.Atoi s = some n) :
    -2 ^ 63 ≤ n ∧ n < 2 ^ 63 := by
  unfold strconv.Atoi at h
  split at h
  · exact absurd h (by simp)
  · split_ifs at h with h1 h2 h3 h4
    · split at h
      · exact absurd h (by simp)
      · split_ifs at h with h5
        simp only [Option.some.injEq] at h
        omega
    · split at h
      · exact absurd h (by simp)
      · split_ifs at h with h5
        simp only [Option.some.injEq] at h
        omega
    · split at h
      · exact absurd h (by simp)
      · split_ifs at h with h5
        simp only [Option.some.injEq] at h
        omega

/-- The run of a range that is not empty starts with its lower bound. -/
theorem Segment.expansion_range_cons {start stop : Int} (h : start ≤ stop) :
    (Segment.range start stop).expansion = start :: (Segment.range (start + 1) stop).expansion := by
  simp only [Segment.expansion]
  have e : (stop + 1 - start).toNat = (stop + 1 - (start + 1)).toNat + 1 := by omega
  rw [e, List.range_succ_eq_map]
  simp only [List.map_cons, List.map_map, Nat.cast_zero, add_zero, List.cons.injEq, true_and]
  apply List.map_congr_left
  intro k _
  simp only [Function.comp, Nat.cast_succ]
  omega

/-- The run of a range whose bounds are out of order is empty. -/
theorem Segment.expansion_range_nil {start stop : Int} (h : stop < start) :
    (Segment.range start stop).expansion = [] := by
  simp only [Segment.expansion]
  have e : (stop + 1 - start).toNat = 0 := by omega
  rw [e]
  rfl

/-- The number of ports of a range. -/
theorem Segment.length_expansion (sg : Segment) :
    ((sg.expansion.length : Nat) : Int) = max sg.cardinality 0 := by
  cases sg with
  | single n => simp [Segment.expansion, Segment.cardinality]
  | range start stop =>
    simp only [Segment.expansion, Segment.cardinality, List.length_map, List.length_range]
    omega

/-- A range loop toward the largest `int` never ends: the counter wraps
around to the smallest `int` and is below the bound again. -/
theorem parsePortRange.loop_diverges (fuel : Nat) (i : Int) (ports : List Int)
    (h1 : -2 ^ 63 ≤ i) (h2 : i < 2 ^ 63) :
    parsePortRange.loop fuel i (2 ^ 63 - 1) ports = none := by
  induction fuel generalizing i ports with
  | zero => rfl
  | succ fuel ih =>
    unfold parsePortRange.loop
    rw [if_pos (by omega)]
    exact ih _ _ (wrapInt64_range _).1 (wrapInt64_range _).2

/-- A range loop that ends has appended the run of the range. -/
theorem parsePortRange.loop_sound (fuel : Nat) (i stop : Int) (ports out : List Int)
    (h1 : -2 ^ 63 ≤ i) (h2 : i < 2 ^ 63) (h3 : stop < 2 ^ 63)
    (h : parsePortRange.loop fuel i stop ports = some out) :
    out = ports ++ (Segment.range i stop).expansion := by
  induction fuel generalizing i ports with
  | zero => exact absurd h (by simp [parsePortRange.loop])
  | succ fuel ih =>
    unfold parsePortRange.loop at h
    by_cases hi : i ≤ stop
    · rw [if_pos hi] at h
      by_cases hs : stop = 2 ^ 63 - 1
      · subst hs
        rw [parsePortRange.loop_diverges fuel _ _ (wrapInt64_range _).1 (wrapInt64_range _).2] at h
        exact absurd h (by simp)
      · have hw : wrapInt64 (i + 1) = i + 1 := wrapInt64_of_fits (by omega) (by omega)
        rw [hw] at h
        rw [ih (i + 1) _ (by omega) (by omega) h, Segment.expansion_range_cons hi]
        simp
    · rw [if_neg hi] at h
      simp only [Option.some.injEq] at h
      rw [Segment.expansion_range_nil (by omega), ← h]
      simp

/-- A range loop that ends has an upper bound below the largest `int`. -/
theorem parsePortRange.loop_ends (fuel : Nat) (i stop : Int) (ports out : List Int)
    (h1 : -2 ^ 63 ≤ i) (h2 : i < 2 ^ 63) (h3 : stop < 2 ^ 63)
    (h : parsePortRange.loop fuel i stop ports = some out) :
    (Segment.range i stop).ends = true := by
  by_cases hs : stop = 2 ^ 63 - 1
  · subst hs
    rw [parsePortRange.loop_diverges fuel i ports h1 h2] at h
    exact absurd h (by simp)
  · simp only [Segment.ends, decide_eq_true_eq]
    omega

/-- A range loop below the largest `int` ends within `stop + 2 - i` tests. -/
theorem parsePortRange.loop_complete (fuel : Nat) (i stop : Int) (ports : List Int)
    (h1 : -2 ^ 63 ≤ i) (h3 : stop < 2 ^ 63 - 1) (hf : (stop + 1 - i).toNat < fuel) :
    parsePortRange.loop fuel i stop ports = some (ports ++ (Segment.range i stop).expansion) := by
  induction fuel generalizing i ports with
  | zero => omega
  | succ fuel ih =>
    unfold parsePortRange.loop
    by_cases hi : i ≤ stop
    · rw [if_pos hi]
      have hw : wrapInt64 (i + 1) = i + 1 := wrapInt64_of_fits (by omega) (by omega)
      rw [hw, ih (i + 1) _ (by omega) (by omega), Segment.expansion_range_cons hi]
      simp
    · rw [if_neg hi, Segment.expansion_range_nil (by omega)]
      simp

/-- A piece that denotes a single integer appends that integer. -/
theorem parsePortRange.segments_single (fuel : Nat) (r : String) (rs : List String)
    (ports : List Int) (n : Int) (h : segmentOf r = some (.single n)) :
    parsePortRange.segments fuel (r :: rs) ports
      = parsePortRange.segments fuel rs (ports ++ [n]) := by
  unfold segmentOf at h
  rw [parsePortRange.segments]
  simp only at h ⊢
  split_ifs at h ⊢ with hc
  · split at h
    · split at h
      · simp at h
      · simp at h
    · simp at h
  · cases ha : strconv.Atoi (strings.TrimSpace r) with
    | none => simp [ha] at h
    | some port =>
      simp only [ha, Option.map_some', Option.some.injEq, Segment.single.injEq] at h
      subst h
      rfl

/-- A piece that denotes a range runs the range loop. -/
theorem parsePortRange.segments_range (fuel : Nat) (r : String) (rs : List String)
    (ports : List Int) (start stop : Int) (h : segmentOf r = some (.range start stop)) :
    parsePortRange.segments fuel (r :: rs) ports
      = match parsePortRange.loop fuel start stop ports with
        | none => none
        | some ports => parsePortRange.segments fuel rs ports := by
  unfold segmentOf at h
  rw [parsePortRange.segments]
  simp only at h ⊢
  split_ifs at h ⊢ with hc
  · split at h
    · rename_i a b hsplit
      cases ha : strconv.Atoi (strings.TrimSpace a) with
      | none => simp [ha] at h
      | some x =>
        cases hb : strconv.Atoi (strings.TrimSpace b) with
        | none => simp [ha, hb] at h
        | some y =>
          simp only [ha, hb, Option.some.injEq, Segment.range.injEq] at h
          obtain ⟨rfl, rfl⟩ := h
          rfl
    · simp at h
  · cases ha : strconv.Atoi (strings.TrimSpace r) with
    | none => simp [ha] at h
    | some port => simp [ha] at h

/-- A piece that denotes no segment makes the function return an error
whose message names the offending token. -/
theorem parsePortRange.segments_reject (fuel : Nat) (r : String) (rs : List String)
    (ports : List Int) (h : segmentOf r = none) :
    ∃ msg, parsePortRange.segments fuel (r :: rs) ports = some (.error msg) ∧
      NamesOffendingToken (strings.TrimSpace r) msg := by
  unfold segmentOf at h
  rw [parsePortRange.segments]
  simp only at h ⊢
  split_ifs at h ⊢ with hc
  · split at h
    · rename_i a b hsplit
      cases ha : strconv.Atoi (strings.TrimSpace a) with
      | none => exact ⟨_, rfl, .startPort a b hc hsplit ha⟩
      | some x =>
        cases hb : strconv.Atoi (strings.TrimSpace b) with
        | none => exact ⟨_, rfl, .endPort a b hc hsplit (by simp [ha]) hb⟩
        | some y => simp [ha, hb] at h
    · rename_i hne
      refine ⟨"invalid port range: " ++ strings.TrimSpace r, ?_, .portRange hc ?_⟩
      · rfl
      · intro hl
        match hs : strings.Split (strings.TrimSpace r) '-', hl with
        | [a, b], _ => exact hne a b hs
  · cases ha : strconv.Atoi (strings.TrimSpace r) with
    | none => exact ⟨_, rfl, .port (by simpa using hc) ha⟩
    | some port => simp [ha] at h

/-- The bounds of a range that a piece denotes fit a Go `int`. -/
theorem segmentOf_range_bounds {r : String} {start stop : Int}
    (h : segmentOf r = some (.range start stop)) :
    (-2 ^ 63 ≤ start ∧ start < 2 ^ 63) ∧ (-2 ^ 63 ≤ stop ∧ stop < 2 ^ 63) := by
  unfold segmentOf at h
  simp only at h
  split_ifs at h with hc
  · split at h
    · rename_i a b hsplit
      cases ha : strconv.Atoi (strings.TrimSpace a) with
      | none => simp [ha] at h
      | some x =>
        cases hb : strconv.Atoi (strings.TrimSpace b) with
        | none => simp [ha, hb] at h
        | some y =>
          simp only [ha, hb, Option.some.injEq, Segment.range.injEq] at h
          obtain ⟨rfl, rfl⟩ := h
          exact ⟨strconv.Atoi_range ha, strconv.Atoi_range hb⟩
    · simp at h
  · cases ha : strconv.Atoi (strings.TrimSpace r) with
    | none => simp [ha] at h
    | some port => simp [ha] at h

/-- A piece is offending exactly when it denotes no segment. -/
theorem offending_iff (r : String) : offending r = true ↔ segmentOf r = none := by
  unfold offending segmentOf validInteger
  simp only
  split_ifs with hc
  · split
    · rename_i a b hsplit
      cases ha : strconv.Atoi (strings.TrimSpace a) <;>
        cases hb : strconv.Atoi (strings.TrimSpace b) <;> simp
    · simp
  · cases ha : strconv.Atoi (strings.TrimSpace r) <;> simp

/-- When the loop over the pieces ends without error, every piece denotes a
segment and the ports are those built before followed by the expansions of
the segments, in order. -/
theorem parsePortRange.segments_sound (fuel : Nat) (rs : List String) (ports out : List Int)
    (h : parsePortRange.segments fuel rs ports = some (.ok out)) :
    ∃ segs : List Segment, rs.map segmentOf = segs.map some ∧
      (∀ sg ∈ segs, sg.ends = true) ∧
      out = ports ++ (segs.map Segment.expansion).flatten := by
  induction rs generalizing ports with
  | nil =>
    simp only [parsePortRange.segments, Option.some.injEq, Except.ok.injEq] at h
    exact ⟨[], rfl, by simp, by simp [h]⟩
  | cons r rs ih =>
    cases hs : segmentOf r with
    | none =>
      obtain ⟨msg, hm, _⟩ := parsePortRange.segments_reject fuel r rs ports hs
      rw [hm] at h
      exact absurd h (by simp)
    | some sg =>
      cases sg with
      | single n =>
        rw [parsePortRange.segments_single fuel r rs ports n hs] at h
        obtain ⟨segs, h1, he, h2⟩ := ih _ h
        refine ⟨.single n :: segs, by simp [hs, h1], ?_, by simp [h2, Segment.expansion]⟩
        intro sg hsg
        rcases List.mem_cons.1 hsg with rfl | hsg
        · rfl
        · exact he sg hsg
      | range start stop =>
        rw [parsePortRange.segments_range fuel r rs ports start stop hs] at h
        obtain ⟨⟨b1, b2⟩, _, b4⟩ := segmentOf_range_bounds hs
        cases hl : parsePortRange.loop fuel start stop ports with
        | none => simp [hl] at h
        | some ports1 =>
          simp only [hl] at h
          obtain ⟨segs, h1, he, h2⟩ := ih _ h
          refine ⟨.range start stop :: segs, by simp [hs, h1], ?_, ?_⟩
          · intro sg hsg
            rcases List.mem_cons.1 hsg with rfl | hsg
            · exact parsePortRange.loop_ends fuel start stop ports ports1 b1 b2 b4 hl
            · exact he sg hsg
          · rw [h2, parsePortRange.loop_sound fuel start stop ports ports1 b1 b2 b4 hl]
            simp

/-- When the loop over the pieces ends with an error, the error is that of
the first offending piece. -/
theorem parsePortRange.segments_error (fuel : Nat) (rs : List String) (ports : List Int)
    (msg : String) (h : parsePortRange.segments fuel rs ports = some (.error msg)) :
    ∃ (before : List String) (bad : String) (after : List String),
      rs = before ++ bad :: after ∧
      (∀ x ∈ before, ∃ sg, segmentOf x = some sg ∧ sg.ends = true) ∧
      offending bad = true ∧ NamesOffendingToken (strings.TrimSpace bad) msg := by
  induction rs generalizing ports with
  | nil => simp [parsePortRange.segments] at h
  | cons r rs ih =>
    cases hs : segmentOf r with
    | none =>
      obtain ⟨msg1, hm, hn⟩ := parsePortRange.segments_reject fuel r rs ports hs
      rw [hm] at h
      simp only [Option.some.injEq, Except.error.injEq] at h
      subst h
      exact ⟨[], r, rs, rfl, by simp, (offending_iff r).2 hs, hn⟩
    | some sg =>
      have key : sg.ends = true → ∀ ports1,
          parsePortRange.segments fuel rs ports1 = some (.error msg) →
          ∃ (before : List String) (bad : String) (after : List String),
            r :: rs = before ++ bad :: after ∧
            (∀ x ∈ before, ∃ sg, segmentOf x = some sg ∧ sg.ends = true) ∧
            offending bad = true ∧ NamesOffendingToken (strings.TrimSpace bad) msg := by
        intro hends ports1 h1
        obtain ⟨before, bad, after, e, hb, ho, hn⟩ := ih _ h1
        refine ⟨r :: before, bad, after, by simp [e], ?_, ho, hn⟩
        intro x hx
        rcases List.mem_cons.1 hx with rfl | hx
        · exact ⟨sg, hs, hends⟩
        · exact hb x hx
      cases sg with
      | single n =>
        rw [parsePortRange.segments_single fuel r rs ports n hs] at h
        exact key rfl _ h
      | range start stop =>
        rw [parsePortRange.segments_range fuel r rs ports start stop hs] at h
        obtain ⟨⟨b1, b2⟩, _, b4⟩ := segmentOf_range_bounds hs
        cases hl : parsePortRange.loop fuel start stop ports with
        | none => simp [hl] at h
        | some ports1 =>
          simp only [hl] at h
          exact key (parsePortRange.loop_ends fuel start stop ports ports1 b1 b2 b4 hl) _ h

/-- When every piece denotes a segment whose loop ends, `2^64 + 1` tests per
loop suffice and the function returns the expansions in order. -/
theorem parsePortRange.segments_complete (fuel : Nat) (hf : 2 ^ 64 < fuel) (rs : List String)
    (segs : List Segment) (ports : List Int)
    (h : rs.map segmentOf = segs.map some) (he : ∀ sg ∈ segs, sg.ends = true) :
    parsePortRange.segments fuel rs ports
      = some (.ok (ports ++ (segs.map Segment.expansion).flatten)) := by
  induction rs generalizing ports segs with
  | nil =>
    cases segs with
    | nil => simp [parsePortRange.segments]
    | cons sg segs => simp at h
  | cons r rs ih =>
    cases segs with
    | nil => simp at h
    | cons sg segs =>
      simp only [List.map_cons, List.cons.injEq] at h
      obtain ⟨hs, ht⟩ := h
      have he1 : ∀ sg1 ∈ segs, sg1.ends = true :=
        fun sg1 h1 => he sg1 (List.mem_cons_of_mem _ h1)
      cases sg with
      | single n =>
        rw [parsePortRange.segments_single fuel r rs ports n hs, ih segs _ ht he1]
        simp [Segment.expansion]
      | range start stop =>
        obtain ⟨⟨b1, b2⟩, b3, b4⟩ := segmentOf_range_bounds hs
        have hstop : stop < 2 ^ 63 - 1 := by
          simpa [Segment.ends] using he _ (List.mem_cons_self _ _)
        rw [parsePortRange.segments_range fuel r rs ports start stop hs,
          parsePortRange.loop_complete fuel start stop ports b1 hstop (by omega)]
        simp only
        rw [ih segs _ ht he1]
        simp

/-- The number of ports of a list of segments. -/
theorem Segment.length_flatten_expansion (segs : List Segment) :
    (((segs.map Segment.expansion).flatten.length : Nat) : Int)
      = (segs.map (fun sg => max sg.cardinality 0)).sum := by
  induction segs with
  | nil => simp
  | cons sg segs ih =>
    simp only [List.map_cons, List.flatten_cons, List.length_append, Nat.cast_add, List.sum_cons,
      ih, Segment.length_expansion]

/-- C3. Whenever `parsePortRange` accepts a port specification, every
comma-separated piece denotes a segment and the returned list is the
concatenation, in input order, of the expansions of the segments (`[n]` for a
single integer, the ascending run of the integers from `start` to `end`, both
included, for a range; the run is empty when `start > end`), nothing merged
or deduplicated; conversely a specification whose pieces all denote segments
with range bounds below the largest `int` is accepted. `"1-3,2-4"` gives
`[1,2,3,2,3,4]` and `"20-22,80"` gives `[20,21,22,80]`. -/
theorem parsePortRange_expansion :
    (∀ (fuel : Nat) (portRange : String) (ports : List Int),
      parsePortRange fuel portRange = some (.ok ports) →
      ∃ segs : List Segment,
        (strings.Split portRange ',').map segmentOf = segs.map some ∧
        ports = (segs.map Segment.expansion).flatten) ∧
    (∀ (portRange : String) (segs : List Segment),
      (strings.Split portRange ',').map segmentOf = segs.map some →
      (∀ sg ∈ segs, sg.ends = true) →
      parsePortRange (2 ^ 64 + 1) portRange
        = some (.ok (segs.map Segment.expansion).flatten)) ∧
    parsePortRange 4 "1-3,2-4" = some (.ok [1, 2, 3, 2, 3, 4]) ∧
    parsePortRange 4 "20-22,80" = some (.ok [20, 21, 22, 80]) := by
  refine ⟨?_, ?_, by decide, by decide⟩
  · intro fuel portRange ports h
    obtain ⟨segs, h1, _, h2⟩ := parsePortRange.segments_sound fuel _ [] ports h
    exact ⟨segs, h1, by simpa using h2⟩
  · intro portRange segs h he
    unfold parsePortRange
    rw [parsePortRange.segments_complete (2 ^ 64 + 1) (by omega) _ segs [] h he]
    simp

/-- C3, at `"20-22,80"`: the specification is accepted, its pieces denote
the range 20-22 and the single port 80, and the result is the concatenation
of their expansions. -/
theorem parsePortRange_expansion_witness :
    parsePortRange 4 "20-22,80" = some (.ok [20, 21, 22, 80]) ∧
    (strings.Split "20-22,80" ',').map segmentOf = [some (.range 20 22), some (.single 80)] ∧
    ∃ segs : List Segment,
      (strings.Split "20-22,80" ',').map segmentOf = segs.map some ∧
      [20, 21, 22, 80] = (segs.map Segment.expansion).flatten :=
  ⟨by decide, by decide, parsePortRange_expansion.1 4 "20-22,80" [20, 21, 22, 80] (by decide)⟩

/-- C4 fails as stated at `"5-3"`: the specification is accepted and yields
no port, while the cardinality `end-start+1` of its only segment is `-1`. -/
theorem parsePortRange_length_counterexample :
    parsePortRange 1 "5-3" = some (.ok []) ∧
    (strings.Split "5-3" ',').map segmentOf = [some (.range 5 3)] ∧
    ((([] : List Int).length : Nat) : Int) ≠ ([Segment.range 5 3].map Segment.cardinality).sum := by
  decide

/-- C4, amended. Whenever `parsePortRange` accepts a port specification, the
length of the returned list is the sum over the segments of `1` for a single
integer and, for a range, of `end-start+1` when that is positive and of `0`
otherwise (a range with `start > end` contributes nothing). -/
theorem parsePortRange_length (fuel : Nat) (portRange : String) (ports : List Int)
    (h : parsePortRange fuel portRange = some (.ok ports)) :
    ∃ segs : List Segment,
      (strings.Split portRange ',').map segmentOf = segs.map some ∧
      ((ports.length : Nat) : Int) = (segs.map (fun sg => max sg.cardinality 0)).sum := by
  obtain ⟨segs, h1, _, h2⟩ := parsePortRange.segments_sound fuel _ [] ports h
  rw [List.nil_append] at h2
  exact ⟨segs, h1, by rw [h2, Segment.length_flatten_expansion]⟩

/-- C4 amended, at `"5-3,20-22,80"`: the specification is accepted with four
ports, and `0 + 3 + 1 = 4`. -/
theorem parsePortRange_length_witness :
    parsePortRange 4 "5-3,20-22,80" = some (.ok [20, 21, 22, 80]) ∧
    ∃ segs : List Segment,
      (strings.Split "5-3,20-22,80" ',').map segmentOf = segs.map some ∧
      ((([20, 21, 22, 80] : List Int).length : Nat) : Int)
        = (segs.map (fun sg => max sg.cardinality 0)).sum :=
  ⟨by decide, parsePortRange_length 4 "5-3,20-22,80" [20, 21, 22, 80] (by decide)⟩

/-- An error that `parsePortRange` returns is that of the first offending
piece: the pieces before it are not offending, and the message names the
offending token. -/
theorem parsePortRange_error_names_token (fuel : Nat) (portRange msg : String)
    (h : parsePortRange fuel portRange = some (.error msg)) :
    ∃ (before : List String) (bad : String) (after : List String),
      strings.Split portRange ',' = before ++ bad :: after ∧
      (∀ x ∈ before, offending x = false) ∧ offending bad = true ∧
      NamesOffendingToken (strings.TrimSpace bad) msg := by
  obtain ⟨before, bad, after, e, hb, ho, hn⟩ :=
    parsePortRange.segments_error fuel _ [] msg h
  refine ⟨before, bad, after, e, ?_, ho, hn⟩
  intro x hx
  obtain ⟨sg, hs, _⟩ := hb x hx
  cases hox : offending x with
  | false => rfl
  | true => rw [(offending_iff x).1 hox] at hs; exact absurd hs (by simp)

/-- C5, what the code does. On `"0-9223372036854775807,abc"` the piece `abc`
is offending, alone it is rejected with "invalid port: abc", yet here
`parsePortRange` never returns, whatever the number of loop tests granted:
the loop of the first piece runs toward the largest `int`, its counter wraps
around to the smallest, and the condition `i <= end` never fails. The
examples of the claim, the empty string, `"80,"`, `"1-2-3"`, `"a-5"`, and an
offending piece after a short range, are rejected with a message that names
the token. -/
theorem parsePortRange_never_returns :
    (∃ piece ∈ strings.Split "0-9223372036854775807,abc" ',', offending piece = true) ∧
    parsePortRange 1 "abc" = some (.error "invalid port: abc") ∧
    (∀ fuel : Nat, parsePortRange fuel "0-9223372036854775807,abc" = none) ∧
    parsePortRange 1 "" = some (.error "invalid port: ") ∧
    parsePortRange 1 "80," = some (.error "invalid port: ") ∧
    parsePortRange 1 "1-2-3" = some (.error "invalid port range: 1-2-3") ∧
    parsePortRange 1 "a-5" = some (.error "invalid start port: a") ∧
    parsePortRange 4 "20-22,x" = some (.error "invalid port: x") := by
  refine ⟨⟨"abc", by decide, by decide⟩, by decide, ?_, by decide, by decide, by decide,
    by decide, by decide⟩
  intro fuel
  have hsplit : strings.Split "0-9223372036854775807,abc" ','
      = ["0-9223372036854775807", "abc"] := by decide
  have hseg : segmentOf "0-9223372036854775807" = some (.range 0 (2 ^ 63 - 1)) := by decide
  unfold parsePortRange
  rw [hsplit, parsePortRange.segments_range fuel _ _ _ _ _ hseg,
    parsePortRange.loop_diverges fuel 0 [] (by omega) (by omega)]

/-! ### Service classification and detection -/

/-- C6. `checkServiceVulnerabilities` returns: for `"FTP"` the one finding
"FTP Anonymous Access" (Medium, exploitable, with a remediation and one CVE
reference URL); for `"SSH"` on a port other than 22 the one finding "SSH on
Non-Standard Port" (Info, non-exploitable); for `"HTTP"` or `"HTTPS"` the one
finding "Web Server Exposed" (Info, exploitable, with a remediation); for
every other input, `"SSH"` on port 22, `"HTTP-Proxy"` and `"Unknown"` among
them, the empty list. Every returned finding has an empty target, an empty
location and the zero timestamp. -/
theorem checkServiceVulnerabilities_spec :
    (∀ port : Int, ∃ v, checkServiceVulnerabilities "FTP" port = [v] ∧
      v.Name = "FTP Anonymous Access" ∧ v.Severity = models.Medium ∧ v.Exploitable = true ∧
      v.Remediation ≠ "" ∧
      v.References = ["https://cve.mitre.org/cgi-bin/cvename.cgi?name=CVE-1999-0497"]) ∧
    (∀ port : Int, port ≠ 22 → ∃ v, checkServiceVulnerabilities "SSH" port = [v] ∧
      v.Name = "SSH on Non-Standard Port" ∧ v.Severity = models.Info ∧
      v.Exploitable = false) ∧
    (∀ (service : String) (port : Int), service = "HTTP" ∨ service = "HTTPS" →
      ∃ v, checkServiceVulnerabilities service port = [v] ∧
        v.Name = "Web Server Exposed" ∧ v.Severity = models.Info ∧ v.Exploitable = true ∧
        v.Remediation ≠ "") ∧
    (∀ (service : String) (port : Int), service ≠ "FTP" → (service = "SSH" → port = 22) →
      service ≠ "HTTP" → service ≠ "HTTPS" → checkServiceVulnerabilities service port = []) ∧
    checkServiceVulnerabilities "SSH" 22 = [] ∧
    (∀ port : Int, checkServiceVulnerabilities "HTTP-Proxy" port = []) ∧
    (∀ port : Int, checkServiceVulnerabilities "Unknown" port = []) ∧
    (∀ (service : String) (port : Int), ∀ v ∈ checkServiceVulnerabilities service port,
      v.Target = "" ∧ v.Location = "" ∧ v.Timestamp = 0) := by
  refine ⟨?_, ?_, ?_, ?_, ?_, ?_, ?_, ?_⟩
  · intro port
    refine ⟨?v1, ?h1, ?_⟩
    case h1 =>
      unfold checkServiceVulnerabilities
      rw [if_pos rfl]
      exact rfl
    exact ⟨rfl, rfl, rfl, by decide, rfl⟩
  · intro port hp
    refine ⟨?v2, ?h2, ?_⟩
    case h2 =>
      unfold checkServiceVulnerabilities
      rw [if_neg (by decide), if_pos rfl, if_pos hp]
      exact rfl
    exact ⟨rfl, rfl, rfl⟩
  · intro service port hs
    have h1 : service ≠ "FTP" := by rcases hs with rfl | rfl <;> decide
    have h2 : service ≠ "SSH" := by rcases hs with rfl | rfl <;> decide
    refine ⟨?v3, ?h3, ?_⟩
    case h3 =>
      unfold checkServiceVulnerabilities
      rw [if_neg h1, if_neg h2, if_pos hs]
      exact rfl
    refine ⟨rfl, rfl, rfl, ?_⟩
    show ("Ensure the web server is properly secured and only necessary ports are exposed"
      : String) ≠ ""
    decide
  · intro service port h1 h2 h3 h4
    unfold checkServiceVulnerabilities
    rw [if_neg h1]
    by_cases hs : service = "SSH"
    · rw [if_pos hs, if_neg (by simp [h2 hs])]
    · rw [if_neg hs, if_neg (by simp [h3, h4])]
  · decide
  · intro port
    unfold checkServiceVulnerabilities
    rw [if_neg (by decide), if_neg (by decide), if_neg (by decide)]
  · intro port
    unfold checkServiceVulnerabilities
    rw [if_neg (by decide), if_neg (by decide), if_neg (by decide)]
  · intro service port v hv
    unfold checkServiceVulnerabilities at hv
    split_ifs at hv <;> simp only [List.mem_singleton, List.not_mem_nil] at hv <;>
      subst hv <;> exact ⟨rfl, rfl, rfl⟩

/-- C6, at SSH on port 2222: one Info finding, not exploitable, with no
target, no location and the zero timestamp. -/
theorem checkServiceVulnerabilities_spec_witness :
    (2222 : Int) ≠ 22 ∧
    ∃ v, checkServiceVulnerabilities "SSH" 2222 = [v] ∧
      v.Name = "SSH on Non-Standard Port" ∧ v.Severity = models.Info ∧
      v.Exploitable = false :=
  ⟨by decide, checkServiceVulnerabilities_spec.2.1 2222 (by decide)⟩

/-- C7, what the code does. A port of the table `commonPorts` gets the name of
the table whatever the probe would answer, because `detectService` returns at
the table hit, before the probe: port 80 gives `"HTTP"`, port 8080
`"HTTP-Proxy"`, port 443 `"HTTPS"`, even when the server answers
`Server: nginx`. Only port 8443, which the table lacks, is probed, and a
successful probe there gives `" (nginx)"`, the empty table name followed by
the header value. -/
theorem detectService_returns_before_probe :
    (∀ (env : Env) (target : String) (timeout : Int),
      detectService env target 80 timeout = "HTTP" ∧
      detectService env target 8080 timeout = "HTTP-Proxy" ∧
      detectService env target 443 timeout = "HTTPS") ∧
    Env.nginx.serviceGet "http://example.com:80" = .ok [("Server", ["nginx"])] ∧
    detectService Env.nginx "example.com" 80 5 = "HTTP" ∧
    detectService Env.nginx "example.com" 80 5 ≠ "HTTP (nginx)" ∧
    detectService Env.nginx "example.com" 8443 5 = " (nginx)" := by
  refine ⟨fun env target timeout => ⟨rfl, rfl, rfl⟩, rfl, rfl, by decide, by decide⟩

/-! ### Web checks -/

/-- The loop of `checkHTTPHeaders` appends one finding per visited header
that the response lacks. -/
theorem checkHTTPHeaders.foldl_appends (env : Env) (headers : Header) (target : String)
    (l : List (String × String)) (acc : List Vulnerability) :
    l.foldl (checkHTTPHeaders.step env headers target) acc
      = acc ++ (l.filter (checkHTTPHeaders.absent headers)).map
          (checkHTTPHeaders.missing env target) := by
  induction l generalizing acc with
  | nil => simp
  | cons e l ih =>
    rw [List.foldl_cons, ih]
    unfold checkHTTPHeaders.step
    cases h : Header.index headers e.1 with
    | none => simp [List.filter_cons, checkHTTPHeaders.absent, h]
    | some val => simp [List.filter_cons, checkHTTPHeaders.absent, h]

/-- The result of `checkHTTPHeaders`, in the order the map was visited. -/
theorem checkHTTPHeaders_eq (env : Env) (headers : Header) (target : String) :
    checkHTTPHeaders env headers target
      = (env.rangeSecurityHeaders.filter (checkHTTPHeaders.absent headers)).map
          (checkHTTPHeaders.missing env target)
        ++ (if Header.Get headers "Server" ≠ ""
            then [checkHTTPHeaders.leak env target (Header.Get headers "Server")] else []) := by
  unfold checkHTTPHeaders
  simp only [checkHTTPHeaders.foldl_appends, List.nil_append]
  split_ifs <;> simp

/-- The result of `checkHTTPHeaders` is the expected list up to the order of
the missing-header findings. -/
theorem checkHTTPHeaders_perm (env : Env) (headers : Header) (target : String) :
    (checkHTTPHeaders env headers target).Perm
      (checkHTTPHeaders.expected env headers target) := by
  rw [checkHTTPHeaders_eq]
  unfold checkHTTPHeaders.expected
  exact List.Perm.append_right _
    ((env.rangeSecurityHeaders_perm.filter _).map _)

/-- Missing-header findings are Low and nothing else. -/
theorem countSeverity_missing (env : Env) (target : String) (sev : Severity)
    (l : List (String × String)) :
    countSeverity sev (l.map (checkHTTPHeaders.missing env target))
      = if sev = models.Low then l.length else 0 := by
  induction l with
  | nil => simp [countSeverity]
  | cons e l ih =>
    rw [List.map_cons, countSeverity_cons, ih]
    have : (checkHTTPHeaders.missing env target e).Severity = models.Low := rfl
    rw [this]
    by_cases h : sev = models.Low
    · simp [h]
    · simp [h, Ne.symm h]

/-- Counting a severity over a concatenation. -/
theorem countSeverity_append (sev : Severity) (a b : List Vulnerability) :
    countSeverity sev (a ++ b) = countSeverity sev a + countSeverity sev b := by
  simp [countSeverity, List.countP_append]

/-- The severities of the findings of `checkHTTPHeaders`, when the response
lacks all five security headers and its `Server` value is not empty: five
Low and one Info. -/
theorem checkHTTPHeaders_counts_all_absent (env : Env) (headers : Header) (target : String)
    (habs : ∀ e ∈ securityHeaders, Header.index headers e.1 = none)
    (hserver : Header.Get headers "Server" ≠ "") :
    (checkHTTPHeaders env headers target).length = 6 ∧
    countSeverity models.Critical (checkHTTPHeaders env headers target) = 0 ∧
    countSeverity models.High (checkHTTPHeaders env headers target) = 0 ∧
    countSeverity models.Medium (checkHTTPHeaders env headers target) = 0 ∧
    countSeverity models.Low (checkHTTPHeaders env headers target) = 5 ∧
    countSeverity models.Info (checkHTTPHeaders env headers target) = 1 := by
  have hlen : env.rangeSecurityHeaders.length = 5 := env.rangeSecurityHeaders_perm.length_eq
  have hfilter : env.rangeSecurityHeaders.filter (checkHTTPHeaders.absent headers)
      = env.rangeSecurityHeaders := by
    rw [List.filter_eq_self]
    intro e he
    simp [checkHTTPHeaders.absent, habs e (env.rangeSecurityHeaders_perm.mem_iff.1 he)]
  obtain ⟨hCH, hCM, hCL, hCI, hHM, hHL, hHI, hML, hMI, hLI⟩ := models.severities_distinct
  have hleak : (checkHTTPHeaders.leak env target (Header.Get headers "Server")).Severity
      = models.Info := rfl
  rw [checkHTTPHeaders_eq, hfilter, if_pos hserver]
  simp only [List.length_append, List.length_map, List.length_singleton, hlen,
    countSeverity_append, countSeverity_missing, countSeverity_cons, hleak]
  simp [countSeverity, hCL, hHL, hML, hLI.symm, hCI.symm, hHI.symm, hMI.symm]

/-- Different table entries give different findings. -/
theorem checkHTTPHeaders.missing_injective (env : Env) (target : String) :
    Function.Injective (checkHTTPHeaders.missing env target) := by
  intro a b h
  have h1 : a.2 = b.2 := congrArg Vulnerability.ID h
  have h2 : "Missing " ++ a.1 ++ " Header" = "Missing " ++ b.1 ++ " Header" :=
    congrArg Vulnerability.Name h
  have h3 := congrArg String.data h2
  simp only [String.data_append, List.append_cancel_right_eq, List.append_cancel_left_eq] at h3
  exact Prod.ext (String.ext h3) h1

/-- The expected list holds the finding of a security header once when the
response lacks the header and not at all when it has it. -/
theorem checkHTTPHeaders.countP_expected (env : Env) (headers : Header) (target : String)
    (e : String × String) (he : e ∈ securityHeaders) :
    (checkHTTPHeaders.expected env headers target).countP
        (fun v => decide (v = checkHTTPHeaders.missing env target e))
      = if Header.index headers e.1 = none then 1 else 0 := by
  have hleak : ∀ srv : String,
      checkHTTPHeaders.leak env target srv ≠ checkHTTPHeaders.missing env target e := by
    intro srv h
    have h1 : "INFO-SERVER-HEADER-LEAK" = e.2 := congrArg Vulnerability.ID h
    simp only [securityHeaders, List.mem_cons, List.mem_singleton, List.not_mem_nil, or_false] at he
    rcases he with rfl | rfl | rfl | rfl | rfl <;> exact absurd h1 (by decide)
  have h2 : (if Header.Get headers "Server" ≠ ""
      then [checkHTTPHeaders.leak env target (Header.Get headers "Server")] else []).countP
        (fun v => decide (v = checkHTTPHeaders.missing env target e)) = 0 := by
    split_ifs
    · simp [List.countP_cons, hleak]
    · simp
  unfold checkHTTPHeaders.expected
  rw [List.countP_append, h2, Nat.add_zero, List.countP_map, List.countP_filter]
  have hp : ((fun v => decide (v = checkHTTPHeaders.missing env target e))
        ∘ checkHTTPHeaders.missing env target)
      = fun x => decide (x = e) := by
    funext x
    simp [(checkHTTPHeaders.missing_injective env target).eq_iff]
  rw [hp]
  simp only [securityHeaders, List.mem_cons, List.mem_singleton, List.not_mem_nil, or_false] at he
  rcases he with rfl | rfl | rfl | rfl | rfl <;>
    cases hidx : Header.index headers _ <;>
    simp [securityHeaders, List.countP_cons, checkHTTPHeaders.absent, hidx]

/-- A `Server` header that is present with an empty value gives no "Server
Header Information Leakage" finding: the code tests the value, not the
presence. -/
theorem checkHTTPHeaders_empty_server :
    Header.index [("Server", [""])] "Server" = some [""] ∧
    ∀ v ∈ checkHTTPHeaders Env.sample [("Server", [""])] "http://example.com",
      v.Name ≠ "Server Header Information Leakage" := by
  decide

/-- What `checkHTTPHeaders` returns, by the keys as the table `securityHeaders`
spells them: up to the order of the missing-header findings the list
`expected`, that is for each of the five table keys exactly one finding when
the header set has no entry under that very key and none when it has one
(Low, located at "HTTP Headers", with the description and remediation of that
key), and after them exactly one Info finding "Server Header Information
Leakage" if and only if the first value of the `Server` header is not
empty. -/
theorem checkHTTPHeaders_by_table_key (env : Env) (headers : Header) (target : String) :
    (checkHTTPHeaders env headers target).Perm (checkHTTPHeaders.expected env headers target) ∧
    securityHeaders.map Prod.fst
      = ["Strict-Transport-Security", "X-Content-Type-Options", "X-Frame-Options",
          "Content-Security-Policy", "X-XSS-Protection"] ∧
    (∀ e ∈ securityHeaders,
      (checkHTTPHeaders env headers target).countP
          (fun v => decide (v = checkHTTPHeaders.missing env target e))
        = if Header.index headers e.1 = none then 1 else 0) ∧
    (∀ e : String × String,
      (checkHTTPHeaders.missing env target e).Severity = models.Low ∧
      (checkHTTPHeaders.missing env target e).Location = "HTTP Headers" ∧
      (checkHTTPHeaders.missing env target e).Name = "Missing " ++ e.1 ++ " Header" ∧
      (checkHTTPHeaders.missing env target e).Description = mapIndex headerDescriptions e.1 ∧
      (checkHTTPHeaders.missing env target e).Remediation = mapIndex headerRemediations e.1) ∧
    (checkHTTPHeaders env headers target).countP
        (fun v => decide (v.Name = "Server Header Information Leakage"))
      = (if Header.Get headers "Server" ≠ "" then 1 else 0) ∧
    (Header.Get headers "Server" ≠ "" →
      checkHTTPHeaders.leak env target (Header.Get headers "Server")
        ∈ checkHTTPHeaders env headers target) ∧
    (∀ server : String,
      (checkHTTPHeaders.leak env target server).Severity = models.Info ∧
      (checkHTTPHeaders.leak env target server).Name = "Server Header Information Leakage" ∧
      (checkHTTPHeaders.leak env target server).Description
        = "Server header discloses technology information: " ++ server) := by
  have hperm := checkHTTPHeaders_perm env headers target
  refine ⟨hperm, rfl, ?_, fun e => ⟨rfl, rfl, rfl, rfl, rfl⟩, ?_, ?_,
    fun server => ⟨rfl, rfl, rfl⟩⟩
  · intro e he
    rw [hperm.countP_eq]
    exact checkHTTPHeaders.countP_expected env headers target e he
  · rw [hperm.countP_eq]
    unfold checkHTTPHeaders.expected
    rw [List.countP_append, List.countP_map]
    have hz : (securityHeaders.filter (checkHTTPHeaders.absent headers)).countP
        ((fun v => decide (v.Name = "Server Header Information Leakage"))
          ∘ checkHTTPHeaders.missing env target) = 0 := by
      rw [List.countP_eq_zero]
      intro e he
      have he1 : e ∈ securityHeaders := List.mem_of_mem_filter he
      simp only [securityHeaders, List.mem_cons, List.mem_singleton, List.not_mem_nil,
        or_false] at he1
      rcases he1 with rfl | rfl | rfl | rfl | rfl <;>
        simp only [Function.comp, checkHTTPHeaders.missing, decide_eq_true_eq] <;> decide
    rw [hz]
    split_ifs <;> simp [checkHTTPHeaders.leak]
  · intro hs
    rw [hperm.mem_iff]
    unfold checkHTTPHeaders.expected
    rw [if_pos hs]
    simp

/-- Under the keys as `net/http` stores them no entry has the key
`X-XSS-Protection`, whose canonical form is `X-Xss-Protection`: so
`checkHTTPHeaders` reports this header as missing for every response. -/
theorem checkHTTPHeaders_xss_always_missing (env : Env) (headers : Header) (target : String)
    (hcanon : ∀ kv ∈ headers, textproto.CanonicalMIMEHeaderKey kv.1 = kv.1) :
    checkHTTPHeaders.missing env target
        ("X-XSS-Protection", "SECURITY-HEADER-XSS-PROTECTION-MISSING")
      ∈ checkHTTPHeaders env headers target := by
  have hidx : Header.index headers "X-XSS-Protection" = none := by
    unfold Header.index
    rw [List.lookup_eq_none_iff]
    intro kv hkv
    have hne : kv.1 ≠ "X-XSS-Protection" := by
      intro e
      have h1 := hcanon kv hkv
      rw [e] at h1
      exact absurd h1 (by decide)
    simpa using Ne.symm hne
  rw [(checkHTTPHeaders_perm env headers target).mem_iff]
  unfold checkHTTPHeaders.expected
  refine List.mem_append_left _ (List.mem_map.2 ⟨_, ?_, rfl⟩)
  rw [List.mem_filter]
  exact ⟨by decide, by simp [checkHTTPHeaders.absent, hidx]⟩

/-- C9, what the code does. `net/http` stores the header `X-XSS-Protection`
under its canonical key `X-Xss-Protection`, while `checkHTTPHeaders` looks it
up under the key as the table spells it. For the header set of a response
that carries all five security headers, each present under its canonical
key, `checkHTTPHeaders` returns one finding, "Missing X-XSS-Protection
Header". -/
theorem checkHTTPHeaders_reports_present_header :
    textproto.CanonicalMIMEHeaderKey "X-XSS-Protection" = "X-Xss-Protection" ∧
    (∀ kv ∈ Header.allFive, textproto.CanonicalMIMEHeaderKey kv.1 = kv.1) ∧
    (∀ e ∈ securityHeaders,
      (Header.index Header.allFive (textproto.CanonicalMIMEHeaderKey e.1)).isSome = true) ∧
    Header.index Header.allFive "X-XSS-Protection" = none ∧
    checkHTTPHeaders Env.sample Header.allFive "http://example.com"
      = [checkHTTPHeaders.missing Env.sample "http://example.com"
          ("X-XSS-Protection", "SECURITY-HEADER-XSS-PROTECTION-MISSING")] ∧
    (checkHTTPHeaders.missing Env.sample "http://example.com"
        ("X-XSS-Protection", "SECURITY-HEADER-XSS-PROTECTION-MISSING")).Name
      = "Missing X-XSS-Protection Header" := by
  decide

/-- C10. On every successful GET, `WebScan` returns the findings of
`checkHTTPHeaders` followed by the three demonstration findings (Possible SQL
Injection at /login, High; Reflected XSS at /search, Medium; Outdated Web
Server Software at /, Medium), whatever the response. When the response
carries none of the five security headers and `Server: nginx/1.18`, that is 9
findings, 5 Low missing-header findings, 1 Info server finding and the 3
demonstration findings, with the summary total 9, critical 0, high 1, medium
2, low 5, info 1. -/
theorem WebScan_success :
    (∀ (env : Env) (target : String) (recursive : Bool) (timeout threads : Int) (verbose : Bool)
        (url : String) (header : Header),
      WebScan.validate env target = .ok url → env.webGet url = .ok header →
      ∃ r, WebScan env target recursive timeout threads verbose = .ok r ∧
        r.Target = url ∧ r.ScanType = "web" ∧
        r.Vulnerabilities = checkHTTPHeaders env header url
          ++ checkCommonWebVulnerabilities env url recursive threads verbose) ∧
    (∀ (env : Env) (url : String) (recursive : Bool) (threads : Int) (verbose : Bool),
      ∃ a b c, checkCommonWebVulnerabilities env url recursive threads verbose = [a, b, c] ∧
        (a.Name = "Possible SQL Injection" ∧ a.Location = "/login" ∧
          a.Severity = models.High) ∧
        (b.Name = "Reflected Cross-Site Scripting (XSS)" ∧ b.Location = "/search" ∧
          b.Severity = models.Medium) ∧
        (c.Name = "Outdated Web Server Software" ∧ c.Location = "/" ∧
          c.Severity = models.Medium)) ∧
    (∀ (env : Env) (target : String) (recursive : Bool) (timeout threads : Int) (verbose : Bool)
        (url : String) (header : Header),
      WebScan.validate env target = .ok url → env.webGet url = .ok header →
      (∀ e ∈ securityHeaders, Header.index header e.1 = none) →
      Header.index header "Server" = some ["nginx/1.18"] →
      ∃ r, WebScan env target recursive timeout threads verbose = .ok r ∧
        r.Vulnerabilities.length = 9 ∧
        (checkHTTPHeaders env header url).length = 6 ∧
        countSeverity models.Low (checkHTTPHeaders env header url) = 5 ∧
        countSeverity models.Info (checkHTTPHeaders env header url) = 1 ∧
        checkHTTPHeaders.leak env url "nginx/1.18" ∈ checkHTTPHeaders env header url ∧
        r.Summary =
          { TotalVulnerabilities := 9, CriticalCount := 0, HighCount := 1, MediumCount := 2,
            LowCount := 5, InfoCount := 1 }) := by
  have hrun : ∀ (env : Env) (target : String) (recursive : Bool) (timeout threads : Int)
      (verbose : Bool) (url : String) (header : Header),
      WebScan.validate env target = .ok url → env.webGet url = .ok header →
      ∃ r, WebScan env target recursive timeout threads verbose = .ok r ∧
        r.Target = url ∧ r.ScanType = "web" ∧
        r.Vulnerabilities = checkHTTPHeaders env header url
          ++ checkCommonWebVulnerabilities env url recursive threads verbose := by
    intro env target recursive timeout threads verbose url header hv hg
    refine ⟨?r, ?h, ?_⟩
    case h =>
      unfold WebScan
      rw [hv]
      exact rfl
    refine ⟨rfl, rfl, ?_⟩
    simp only [hg]
  refine ⟨hrun, fun env url recursive threads verbose => ⟨_, _, _, rfl, ⟨rfl, rfl, rfl⟩,
    ⟨rfl, rfl, rfl⟩, ⟨rfl, rfl, rfl⟩⟩, ?_⟩
  intro env target recursive timeout threads verbose url header hv hg habs hsrv
  obtain ⟨r, hr, _, _, hvul⟩ := hrun env target recursive timeout threads verbose url header hv hg
  have hget : Header.Get header "Server" = "nginx/1.18" := by
    unfold Header.index at hsrv
    unfold Header.Get
    rw [hsrv]
  have hne : Header.Get header "Server" ≠ "" := by rw [hget]; decide
  obtain ⟨c0, c1, c2, c3, c4, c5⟩ :=
    checkHTTPHeaders_counts_all_absent env header url habs hne
  obtain ⟨hCH, hCM, hCL, hCI, hHM, hHL, hHI, hML, hMI, hLI⟩ := models.severities_distinct
  have hleak : checkHTTPHeaders.leak env url "nginx/1.18" ∈ checkHTTPHeaders env header url := by
    rw [(checkHTTPHeaders_perm env header url).mem_iff]
    unfold checkHTTPHeaders.expected
    rw [if_pos hne, hget]
    simp
  refine ⟨r, hr, ?_, c0, c4, c5, hleak, ?_⟩
  · rw [hvul, List.length_append, c0]
    rfl
  · rw [WebScan_summary hr, calculateSummary_eq, hvul]
    simp only [countSeverity_append, List.length_append, c0, c1, c2, c3, c4, c5]
    simp [checkCommonWebVulnerabilities, countSeverity, hCH, hCM, hHM, hHM.symm, hML, hMI,
      hHL, hHI, hCH.symm, hCM.symm]

/-- C10, at the web scan of `example.com` in the sample world, whose server
sends no security header and `Server: nginx/1.18`: the scan returns nine
findings with the summary 9, 0, 1, 2, 5, 1. -/
theorem WebScan_success_witness :
    WebScan.validate Env.sample "example.com" = .ok "http://example.com" ∧
    Env.sample.webGet "http://example.com" = .ok [("Server", ["nginx/1.18"])] ∧
    ∃ r, WebScan Env.sample "example.com" false 5 4 false = .ok r ∧
      r.Vulnerabilities.length = 9 ∧
      r.Summary =
        { TotalVulnerabilities := 9, CriticalCount := 0, HighCount := 1, MediumCount := 2,
          LowCount := 5, InfoCount := 1 } := by
  obtain ⟨r, h1, h2, _, _, _, _, h3⟩ :=
    WebScan_success.2.2 Env.sample "example.com" false 5 4 false "http://example.com"
      [("Server", ["nginx/1.18"])] (by decide) rfl (by decide) (by decide)
  exact ⟨by decide, rfl, r, h1, h2, h3⟩

/-! ### The scans -/

/-- What `WebScan` returns when the GET request fails. -/
theorem WebScan_of_get_error (env : Env) (target : String) (recursive : Bool)
    (timeout threads : Int) (verbose : Bool) (url err : String)
    (hv : WebScan.validate env target = .ok url) (hg : env.webGet url = .error err) :
    ∃ r, WebScan env target recursive timeout threads verbose = .ok r ∧
      r.Target = url ∧ r.ScanType = "web" ∧
      r.Vulnerabilities = [WebScan.connectionError env url err] := by
  refine ⟨?r, ?h, ?_⟩
  case h =>
    unfold WebScan
    rw [hv]
    exact rfl
  refine ⟨rfl, rfl, ?_⟩
  simp only [hg]

/-- C11. For every target that passes the URL validation and whose GET
request fails, `WebScan` returns no error but a `ScanResult` of type "web"
whose only finding is "Web Server Connection Error" (Medium, not
exploitable): no header finding, no demonstration finding, and the summary is
total 1, medium 1, every other counter 0. -/
theorem WebScan_connection_error (env : Env) (target : String) (recursive : Bool)
    (timeout threads : Int) (verbose : Bool) (url err : String)
    (hv : WebScan.validate env target = .ok url) (hg : env.webGet url = .error err) :
    ∃ r v, WebScan env target recursive timeout threads verbose = .ok r ∧
      r.ScanType = "web" ∧ r.Vulnerabilities = [v] ∧
      v.Name = "Web Server Connection Error" ∧ v.Severity = models.Medium ∧
      v.Exploitable = false ∧ v.Description = "Failed to connect to web server: " ++ err ∧
      r.Summary =
        { TotalVulnerabilities := 1, CriticalCount := 0, HighCount := 0, MediumCount := 1,
          LowCount := 0, InfoCount := 0 } := by
  obtain ⟨r, hr, _, hty, hvul⟩ :=
    WebScan_of_get_error env target recursive timeout threads verbose url err hv hg
  refine ⟨r, WebScan.connectionError env url err, hr, hty, hvul, rfl, rfl, rfl, rfl, ?_⟩
  rw [WebScan_summary hr, hvul]
  rfl

/-- C11, at the web scan of `example.com` in the world whose web server
cannot be reached. -/
theorem WebScan_connection_error_witness :
    WebScan.validate Env.offline "example.com" = .ok "http://example.com" ∧
    Env.offline.webGet "http://example.com" = .error "dial tcp: connection refused" ∧
    ∃ r v, WebScan Env.offline "example.com" false 5 4 false = .ok r ∧
      r.ScanType = "web" ∧ r.Vulnerabilities = [v] ∧
      v.Name = "Web Server Connection Error" ∧ v.Severity = models.Medium ∧
      v.Exploitable = false ∧
      v.Description = "Failed to connect to web server: " ++ "dial tcp: connection refused" ∧
      r.Summary =
        { TotalVulnerabilities := 1, CriticalCount := 0, HighCount := 0, MediumCount := 1,
          LowCount := 0, InfoCount := 0 } :=
  ⟨by decide, rfl,
    WebScan_connection_error Env.offline "example.com" false 5 4 false "http://example.com"
      "dial tcp: connection refused" (by decide) rfl⟩

/-- `NetworkScan` returns an error exactly when `parsePortRange` does, and it
is the same error. -/
theorem NetworkScan_error_iff (env : Env) (fuel : Nat) (target portRange : String)
    (timeout threads : Int) (verbose : Bool) (msg : String) :
    NetworkScan env fuel target portRange timeout threads verbose = some (.error msg) ↔
      parsePortRange fuel portRange = some (.error msg) := by
  unfold NetworkScan
  cases hp : parsePortRange fuel portRange with
  | none => simp
  | some res =>
    cases res with
    | error e => simp
    | ok ports =>
      simp only
      cases hc : env.collect threads (ports.map (NetworkScan.worker env target timeout)) with
      | none => simp
      | some vs => simp

/-- `FullScan` returns an error exactly when `NetworkScan` does; its message
is that of `NetworkScan` after the words "network scan failed: ". -/
theorem FullScan_error_iff (env : Env) (fuel : Nat) (target portRange : String)
    (timeout threads : Int) (recursive verbose : Bool) (e : String) :
    FullScan env fuel target portRange timeout threads recursive verbose = some (.error e) ↔
      ∃ msg, NetworkScan env fuel target portRange timeout threads verbose = some (.error msg) ∧
        e = "network scan failed: " ++ msg := by
  unfold FullScan
  cases hn : NetworkScan env fuel target portRange timeout threads verbose with
  | none => simp
  | some res =>
    cases res with
    | error msg =>
      simp only [Option.some.injEq, Except.error.injEq]
      constructor
      · intro h
        exact ⟨msg, rfl, h.symm⟩
      · rintro ⟨msg1, h1, h2⟩
        rw [h2, h1]
    | ok n => simp

/-- What `FullScan` returns when `NetworkScan` returns a result. -/
theorem FullScan_of_network_ok (env : Env) (fuel : Nat) (target portRange : String)
    (timeout threads : Int) (recursive verbose : Bool) (n : ScanResult)
    (hn : NetworkScan env fuel target portRange timeout threads verbose = some (.ok n)) :
    ∃ r, FullScan env fuel target portRange timeout threads recursive verbose = some (.ok r) ∧
      r.ScanType = "full" ∧ r.Target = target ∧
      r.Vulnerabilities = n.Vulnerabilities ++ FullScan.webFindings
        (WebScan env (FullScan.webTarget target) recursive timeout threads verbose) := by
  refine ⟨?r, ?h, ?_⟩
  case h =>
    unfold FullScan
    rw [hn]
    exact rfl
  refine ⟨rfl, rfl, ?_⟩
  unfold FullScan.webFindings
  rfl

/-- C12. `FullScan` returns an error if and only if `NetworkScan` does, which
is exactly when the port specification fails to parse, whatever the world
answers; the error is then that of the parser. When `NetworkScan` returns a
result, `FullScan` returns a `ScanResult` of type "full" for the original
target whose findings are the network findings followed by the web findings:
none when `WebScan` returns an error, the single Medium "Web Server
Connection Error" finding when the web phase fails to connect. -/
theorem FullScan_phases :
    (∀ (env : Env) (fuel : Nat) (target portRange : String) (timeout threads : Int)
        (recursive verbose : Bool),
      ((∃ e, FullScan env fuel target portRange timeout threads recursive verbose
          = some (.error e)) ↔
        ∃ e, NetworkScan env fuel target portRange timeout threads verbose = some (.error e)) ∧
      ((∃ e, NetworkScan env fuel target portRange timeout threads verbose = some (.error e)) ↔
        ∃ e, parsePortRange fuel portRange = some (.error e))) ∧
    (∀ (env : Env) (fuel : Nat) (target portRange : String) (timeout threads : Int)
        (recursive verbose : Bool) (msg : String),
      parsePortRange fuel portRange = some (.error msg) →
      NetworkScan env fuel target portRange timeout threads verbose = some (.error msg) ∧
      FullScan env fuel target portRange timeout threads recursive verbose
        = some (.error ("network scan failed: " ++ msg))) ∧
    (∀ (env : Env) (fuel : Nat) (target portRange : String) (timeout threads : Int)
        (recursive verbose : Bool) (n : ScanResult),
      NetworkScan env fuel target portRange timeout threads verbose = some (.ok n) →
      ∃ r, FullScan env fuel target portRange timeout threads recursive verbose = some (.ok r) ∧
        r.ScanType = "full" ∧ r.Target = target ∧
        r.Vulnerabilities = n.Vulnerabilities ++ FullScan.webFindings
          (WebScan env (FullScan.webTarget target) recursive timeout threads verbose) ∧
        (∀ w, WebScan env (FullScan.webTarget target) recursive timeout threads verbose = .ok w →
          r.Vulnerabilities = n.Vulnerabilities ++ w.Vulnerabilities) ∧
        (∀ e, WebScan env (FullScan.webTarget target) recursive timeout threads verbose
            = .error e →
          r.Vulnerabilities = n.Vulnerabilities) ∧
        (∀ url err, WebScan.validate env (FullScan.webTarget target) = .ok url →
          env.webGet url = .error err →
          ∃ v, r.Vulnerabilities = n.Vulnerabilities ++ [v] ∧
            v.Name = "Web Server Connection Error" ∧ v.Severity = models.Medium)) := by
  refine ⟨?_, ?_, ?_⟩
  · intro env fuel target portRange timeout threads recursive verbose
    constructor
    · constructor
      · rintro ⟨e, h⟩
        obtain ⟨msg, h1, _⟩ := (FullScan_error_iff _ _ _ _ _ _ _ _ e).1 h
        exact ⟨msg, h1⟩
      · rintro ⟨msg, h⟩
        exact ⟨_, (FullScan_error_iff _ _ _ _ _ _ _ _ _).2 ⟨msg, h, rfl⟩⟩
    · constructor
      · rintro ⟨e, h⟩
        exact ⟨e, (NetworkScan_error_iff _ _ _ _ _ _ _ e).1 h⟩
      · rintro ⟨e, h⟩
        exact ⟨e, (NetworkScan_error_iff env _ target _ timeout threads verbose e).2 h⟩
  · intro env fuel target portRange timeout threads recursive verbose msg h
    have hn := (NetworkScan_error_iff env fuel target portRange timeout threads verbose msg).2 h
    exact ⟨hn, (FullScan_error_iff _ _ _ _ _ _ _ _ _).2 ⟨msg, hn, rfl⟩⟩
  · intro env fuel target portRange timeout threads recursive verbose n hn
    obtain ⟨r, hr, hty, htg, hvul⟩ :=
      FullScan_of_network_ok env fuel target portRange timeout threads recursive verbose n hn
    refine ⟨r, hr, hty, htg, hvul, ?_, ?_, ?_⟩
    · intro w hw
      rw [hvul, hw]
      rfl
    · intro e he
      rw [hvul, he]
      exact List.append_nil _
    · intro url err hv hg
      obtain ⟨w, hw, _, _, hwv⟩ :=
        WebScan_of_get_error env (FullScan.webTarget target) recursive timeout threads verbose
          url err hv hg
      exact ⟨WebScan.connectionError env url err, by rw [hvul, hw]; exact congrArg _ hwv,
        rfl, rfl⟩

/-- C12, at the full scan of `host` over the ports `20-22,80` in the world
whose web server cannot be reached: the three network findings followed by
the connection error finding. -/
theorem FullScan_phases_witness :
    ∃ n r v, NetworkScan Env.offline 10 "host" "20-22,80" 1 4 false = some (.ok n) ∧
      n.Vulnerabilities.length = 3 ∧
      FullScan Env.offline 10 "host" "20-22,80" 1 4 false false = some (.ok r) ∧
      r.ScanType = "full" ∧ r.Target = "host" ∧
      r.Vulnerabilities = n.Vulnerabilities ++ [v] ∧
      v.Name = "Web Server Connection Error" ∧ v.Severity = models.Medium := by
  obtain ⟨r, h1, h2, h3, _, _, _, h4⟩ :=
    FullScan_phases.2.2 Env.offline 10 "host" "20-22,80" 1 4 false false _ rfl
  obtain ⟨v, h5, h6, h7⟩ := h4 "http://host" "dial tcp: connection refused" (by decide) rfl
  exact ⟨_, r, v, rfl, by decide, h1, h2, h3, h5, h6, h7⟩

/-- A target that `url.ParseRequestURI` rejects and that begins with the
letters "http" is rejected as it is: nothing is prepended. -/
theorem WebScan_rejects_http_letters (env : Env) (target : String) (recursive : Bool)
    (timeout threads : Int) (verbose : Bool)
    (hp : env.parseRequestURI target = false) (hh : strings.HasPrefix target "http" = true) :
    WebScan env target recursive timeout threads verbose = .error ("invalid URL: " ++ target) := by
  unfold WebScan WebScan.validate
  simp [hp, hh]

/-- A target that `url.ParseRequestURI` accepts is scanned as it is, whatever
its scheme. -/
theorem WebScan_keeps_parsed_target (env : Env) (target : String) (recursive : Bool)
    (timeout threads : Int) (verbose : Bool) (hp : env.parseRequestURI target = true) :
    ∃ r, WebScan env target recursive timeout threads verbose = .ok r ∧ r.Target = target := by
  refine ⟨?r, ?h, ?_⟩
  case h =>
    unfold WebScan WebScan.validate
    rw [if_pos hp]
    exact rfl
  rfl

/-- C13, what the code does. `WebScan` prepends "http://" only to a target
that `url.ParseRequestURI` rejects and that does not begin with the four
letters "http". The scheme-less host name `httpbin.org` begins with these
letters: it is rejected with "invalid URL" although `http://httpbin.org`
parses, and `FullScan` hands it to `WebScan` unchanged. A target that
`url.ParseRequestURI` accepts is requested and reported as it is, whatever
its scheme: the scan of `ftp://example.com` returns a result whose target
does not begin with "http://" or "https://". -/
theorem WebScan_validate_http_letters :
    (Env.sample.parseRequestURI "httpbin.org" = false ∧
      Env.sample.parseRequestURI "http://httpbin.org" = true ∧
      WebScan Env.sample "httpbin.org" false 5 4 false = .error "invalid URL: httpbin.org" ∧
      FullScan.webTarget "httpbin.org" = "httpbin.org") ∧
    (Env.anyScheme.parseRequestURI "ftp://example.com" = true ∧
      ∃ r, WebScan Env.anyScheme "ftp://example.com" false 5 4 false = .ok r ∧
        r.Target = "ftp://example.com" ∧
        strings.HasPrefix r.Target "http://" = false ∧
        strings.HasPrefix r.Target "https://" = false) := by
  exact ⟨⟨by decide, by decide, by decide, by decide⟩, by decide,
    ⟨_, rfl, by decide, by decide, by decide⟩⟩

/-! ### `SanitizeInput` -/

/-- Replacing a character by the empty string deletes it. -/
theorem strings.ReplaceAll_empty (s : String) (old : Char) :
    strings.ReplaceAll s old "" = ⟨s.data.filter (fun c => !decide (c = old))⟩ := by
  unfold strings.ReplaceAll
  congr 1
  induction s.data with
  | nil => rfl
  | cons c cs ih =>
    rw [List.flatMap_cons, ih, List.filter_cons]
    by_cases h : c = old <;> simp [h]

/-- The eight replacements of `SanitizeInput` delete the dangerous
characters and nothing else. -/
theorem SanitizeInput_eq (input : String) :
    SanitizeInput input = strings.TrimSpace (withoutDangerous input) := by
  unfold SanitizeInput withoutDangerous
  simp only [strings.ReplaceAll_empty, List.filter_filter]
  congr 2
  apply List.filter_congr
  intro c _
  simp only [dangerous, List.mem_cons, List.mem_singleton, List.not_mem_nil, or_false]
  by_cases h1 : c = ';' <;> by_cases h2 : c = '&' <;> by_cases h3 : c = '|' <;>
    by_cases h4 : c = '>' <;> by_cases h5 : c = '<' <;> by_cases h6 : c = '$' <;>
    by_cases h7 : c = backtick <;> by_cases h8 : c = backslash <;>
    simp [h1, h2, h3, h4, h5, h6, h7, h8]

/-- The characters of `strings.TrimSpace s`: those of `s` without the run of
white space at either end. -/
theorem strings.TrimSpace_data (s : String) :
    (strings.TrimSpace s).data
      = (s.data.dropWhile unicode.IsSpace).rdropWhile unicode.IsSpace := rfl

/-- A list is what is left of it without a run at its end, followed by that
run. -/
theorem rdropWhile_append_rtakeWhile (p : Char → Bool) (l : List Char) :
    l.rdropWhile p ++ l.rtakeWhile p = l := by
  unfold List.rdropWhile List.rtakeWhile
  rw [← List.reverse_append, List.takeWhile_append_dropWhile, List.reverse_reverse]

/-- Trimming takes away white space only, a run at each end, and what is
left neither begins nor ends with white space. -/
theorem strings.TrimSpace_decomposition (s : String) :
    ∃ before after : List Char,
      (∀ c ∈ before, unicode.IsSpace c = true) ∧ (∀ c ∈ after, unicode.IsSpace c = true) ∧
      s.data = before ++ (strings.TrimSpace s).data ++ after ∧
      ∀ h : (strings.TrimSpace s).data ≠ [],
        unicode.IsSpace ((strings.TrimSpace s).data.head h) = false ∧
        unicode.IsSpace ((strings.TrimSpace s).data.getLast h) = false := by
  refine ⟨s.data.takeWhile unicode.IsSpace,
    (s.data.dropWhile unicode.IsSpace).rtakeWhile unicode.IsSpace,
    fun c hc => List.mem_takeWhile_imp hc, fun c hc => List.mem_rtakeWhile_imp hc, ?_, ?_⟩
  · rw [strings.TrimSpace_data, List.append_assoc, rdropWhile_append_rtakeWhile,
      List.takeWhile_append_dropWhile]
  · intro h
    rw [strings.TrimSpace_data] at h
    constructor
    · have hpre : (s.data.dropWhile unicode.IsSpace).rdropWhile unicode.IsSpace
          <+: s.data.dropWhile unicode.IsSpace := List.rdropWhile_prefix _ _
      have := hpre.head h
      simp only [strings.TrimSpace_data]
      rw [this]
      exact List.head_dropWhile_not _ _ _
    · simp only [strings.TrimSpace_data]
      simpa using List.rdropWhile_last_not unicode.IsSpace _ h

/-- Trimming a trimmed string changes nothing. -/
theorem strings.TrimSpace_idempotent (s : String) :
    strings.TrimSpace (strings.TrimSpace s) = strings.TrimSpace s := by
  apply String.ext
  obtain ⟨_, _, _, _, _, hends⟩ := strings.TrimSpace_decomposition s
  rw [strings.TrimSpace_data (strings.TrimSpace s)]
  have h1 : (strings.TrimSpace s).data.dropWhile unicode.IsSpace = (strings.TrimSpace s).data := by
    rw [List.dropWhile_eq_self_iff]
    intro hl
    have hne : (strings.TrimSpace s).data ≠ [] := List.ne_nil_of_length_pos hl
    have := (hends hne).1
    rw [List.head_eq_getElem] at this
    simp [this]
  rw [h1, List.rdropWhile_eq_self_iff]
  intro hl
  simp [(hends hl).2]

/-- No dangerous character is left in the input without the dangerous
characters. -/
theorem withoutDangerous_clean (input : String) (c : Char) (hc : c ∈ dangerous) :
    c ∉ (withoutDangerous input).data := by
  intro h
  unfold withoutDangerous at h
  simp only [List.mem_filter] at h
  simp [hc] at h

/-- A string without dangerous characters is left alone by the deletion. -/
theorem withoutDangerous_of_clean (s : String) (h : ∀ c ∈ dangerous, c ∉ s.data) :
    withoutDangerous s = s := by
  apply String.ext
  unfold withoutDangerous
  simp only
  rw [List.filter_eq_self]
  intro a ha
  simp only [Bool.not_eq_true', decide_eq_false_iff_not]
  exact fun hd => h a hd ha

/-- The characters of a trimmed string are characters of the string. -/
theorem strings.TrimSpace_sublist (s : String) : (strings.TrimSpace s).data.Sublist s.data := by
  rw [strings.TrimSpace_data]
  exact (List.rdropWhile_prefix _ _).sublist.trans (List.dropWhile_sublist _)

/-- C14. For every input string, the result of `SanitizeInput` holds none of
the characters `;` `&` `|` `>` `<` `$`, backtick and backslash; it is the
input with exactly these characters deleted (every other character kept, in
order) and then a run of white space taken away at each end, so that it
neither begins nor ends with white space; and sanitizing a sanitized string
changes nothing. -/
theorem SanitizeInput_spec :
    dangerous = [';', '&', '|', '>', '<', '$', Char.ofNat 96, Char.ofNat 92] ∧
    (∀ (input : String) (c : Char), c ∈ dangerous → c ∉ (SanitizeInput input).data) ∧
    (∀ input : String, ∃ before after : List Char,
      (∀ c ∈ before, unicode.IsSpace c = true) ∧ (∀ c ∈ after, unicode.IsSpace c = true) ∧
      input.data.filter (fun c => !decide (c ∈ dangerous))
        = before ++ (SanitizeInput input).data ++ after ∧
      ∀ h : (SanitizeInput input).data ≠ [],
        unicode.IsSpace ((SanitizeInput input).data.head h) = false ∧
        unicode.IsSpace ((SanitizeInput input).data.getLast h) = false) ∧
    (∀ input : String, (SanitizeInput input).data.Sublist input.data) ∧
    (∀ input : String, SanitizeInput (SanitizeInput input) = SanitizeInput input) ∧
    SanitizeInput "  ls -l; rm $HOME | tee >x  " = "ls -l rm HOME  tee x" := by
  have hclean : ∀ (input : String) (c : Char), c ∈ dangerous →
      c ∉ (SanitizeInput input).data := by
    intro input c hc h
    rw [SanitizeInput_eq] at h
    exact withoutDangerous_clean input c hc ((strings.TrimSpace_sublist _).subset h)
  refine ⟨rfl, hclean, ?_, ?_, ?_, by decide⟩
  · intro input
    obtain ⟨before, after, h1, h2, h3, h4⟩ :=
      strings.TrimSpace_decomposition (withoutDangerous input)
    refine ⟨before, after, h1, h2, ?_, ?_⟩
    · rw [SanitizeInput_eq]
      exact h3
    · simp only [SanitizeInput_eq]
      exact h4
  · intro input
    rw [SanitizeInput_eq]
    exact (strings.TrimSpace_sublist _).trans (List.filter_sublist _)
  · intro input
    rw [SanitizeInput_eq (SanitizeInput input),
      withoutDangerous_of_clean _ (fun c hc => hclean input c hc), SanitizeInput_eq,
      strings.TrimSpace_idempotent]

/-- C14, at the semicolon and the input `a;b `. -/
theorem SanitizeInput_spec_witness :
    ';' ∈ dangerous ∧ ';' ∉ (SanitizeInput "a;b ").data ∧ SanitizeInput "a;b " = "ab" :=
  ⟨by decide, SanitizeInput_spec.2.1 "a;b " ';' (by decide), by decide⟩

/-! ### `FormatDuration` -/

/-- The text `formatTime` gives a component is the one the specification
words. -/
theorem formatTime_eq_unitText (value : Int) (unit : String) :
    formatTime value unit = unitText value unit := by
  unfold formatTime unitText
  by_cases h : value = 1
  · subst h
    rw [if_pos rfl, if_pos rfl, String.append_empty]
    rfl
  · rw [if_neg h, if_neg h]

/-- Rounding a non-negative duration to the second, when the result fits:
the nearest whole number of seconds, halves rounded up. -/
theorem time.Round_second (d : Int) (h0 : 0 ≤ d) (h1 : d < 2 ^ 63)
    (hfit : (d + 500000000) / 1000000000 * 1000000000 < 2 ^ 63) :
    time.Round d time.Second = (d + 500000000) / 1000000000 * 1000000000 := by
  unfold time.Round time.Second time.lessThanHalf
  rw [if_neg (by omega), if_neg (by omega), Int.tmod_eq_emod h0 (by omega)]
  simp only [decide_eq_true_eq]
  unfold wrapInt64
  split_ifs <;> omega

/-- The components `FormatDuration` computes from a rounded duration of `T`
whole seconds that fits an `int64`. -/
theorem FormatDuration_components (T : Int) (h0 : 0 ≤ T) (hfit : T * 1000000000 < 2 ^ 63) :
    Int.tdiv (T * 1000000000) time.Hour = T / 3600 ∧
    Int.tdiv (wrapInt64 (T * 1000000000 - wrapInt64 (T / 3600 * time.Hour))) time.Minute
      = T % 3600 / 60 ∧
    Int.tdiv (wrapInt64 (wrapInt64 (T * 1000000000 - wrapInt64 (T / 3600 * time.Hour))
        - wrapInt64 (T % 3600 / 60 * time.Minute))) time.Second = T % 60 := by
  unfold time.Hour time.Minute time.Second
  have e1 : wrapInt64 (T / 3600 * (60 * (60 * 1000000000))) = T / 3600 * 3600000000000 :=
    wrapInt64_of_fits (by omega) (by omega)
  have e2 : wrapInt64 (T * 1000000000 - T / 3600 * 3600000000000) = T % 3600 * 1000000000 := by
    rw [wrapInt64_of_fits (by omega) (by omega)]
    omega
  have e3 : wrapInt64 (T % 3600 / 60 * (60 * 1000000000)) = T % 3600 / 60 * 60000000000 :=
    wrapInt64_of_fits (by omega) (by omega)
  have e4 : wrapInt64 (T % 3600 * 1000000000 - T % 3600 / 60 * 60000000000)
      = T % 60 * 1000000000 := by
    rw [wrapInt64_of_fits (by omega) (by omega)]
    omega
  rw [e1, e2, e3, e4]
  refine ⟨?_, ?_, ?_⟩
  · rw [Int.tdiv_eq_ediv (by omega) (by omega)]
    omega
  · rw [Int.tdiv_eq_ediv (by omega) (by omega)]
    omega
  · rw [Int.tdiv_eq_ediv (by omega) (by omega)]
    omega

/-- C15. For every non-negative duration `d` (in nanoseconds) whose rounding
to the second fits an `int64`, let `T` be `d` rounded to the nearest whole
second, halves up, `h = T / 3600`, `m = (T mod 3600) / 60`, `s = T mod 60`.
`FormatDuration d` is the three components when `h > 0`, the minutes and the
seconds when `h = 0` and `m > 0`, the seconds alone otherwise, each unit in
the singular exactly when its value is 1 and with a trailing "s" for every
other value, 0 included; and `0 <= m < 60`, `0 <= s < 60`,
`h*3600 + m*60 + s = T`. -/
theorem FormatDuration_spec (d : Int) (h0 : 0 ≤ d) (h1 : d < 2 ^ 63)
    (hfit : (d + 500000000) / 1000000000 * 1000000000 < 2 ^ 63) :
    FormatDuration d =
      (if (d + 500000000) / 1000000000 / 3600 > 0 then
        unitText ((d + 500000000) / 1000000000 / 3600) "hour" ++ ", "
          ++ unitText ((d + 500000000) / 1000000000 % 3600 / 60) "minute" ++ ", "
          ++ unitText ((d + 500000000) / 1000000000 % 60) "second"
      else if (d + 500000000) / 1000000000 % 3600 / 60 > 0 then
        unitText ((d + 500000000) / 1000000000 % 3600 / 60) "minute" ++ ", "
          ++ unitText ((d + 500000000) / 1000000000 % 60) "second"
      else unitText ((d + 500000000) / 1000000000 % 60) "second") ∧
    (∀ unit : String, unitText 1 unit = "1 " ++ unit) ∧
    (∀ (value : Int) (unit : String), value ≠ 1 →
      unitText value unit = strconv.Itoa value ++ " " ++ unit ++ "s") ∧
    (0 ≤ (d + 500000000) / 1000000000 % 3600 / 60 ∧
      (d + 500000000) / 1000000000 % 3600 / 60 < 60) ∧
    (0 ≤ (d + 500000000) / 1000000000 % 60 ∧ (d + 500000000) / 1000000000 % 60 < 60) ∧
    (d + 500000000) / 1000000000 / 3600 * 3600 + (d + 500000000) / 1000000000 % 3600 / 60 * 60
      + (d + 500000000) / 1000000000 % 60 = (d + 500000000) / 1000000000 := by
  refine ⟨?_, ?_, ?_, by omega, by omega, by omega⟩
  · obtain ⟨c1, c2, c3⟩ :=
      FormatDuration_components ((d + 500000000) / 1000000000) (by omega) hfit
    unfold FormatDuration
    simp only [time.Round_second d h0 h1 hfit, c1, c2, c3, formatTime_eq_unitText]
  · intro unit
    rw [← formatTime_eq_unitText]
    rfl
  · intro value unit hv
    unfold unitText
    rw [if_neg hv]

/-- C15, at 3661.5 seconds, which round up to 3662: one hour, one minute and
two seconds. -/
theorem FormatDuration_spec_witness :
    FormatDuration 3661500000000 = "1 hour, 1 minute, 2 seconds" ∧
    FormatDuration 499999999 = "0 seconds" ∧
    FormatDuration 60000000000 = "1 minute, 0 seconds" ∧
    (3661500000000 + 500000000) / 1000000000 = (3662 : Int) :=
  ⟨((FormatDuration_spec 3661500000000 (by decide) (by decide) (by decide)).1).trans
      (by decide),
    by decide, by decide, by decide⟩

/-! ### Decimal text of a port and the parser -/

/-- The digit character of a value below ten reads back as that value. -/
theorem strconv.digit_digitChar (m : Nat) (h : m < 10) :
    strconv.digit (Nat.digitChar m) = some m := by
  interval_cases m <;> rfl

/-- Reading the digits that `Nat.toDigitsCore` puts before `ds`. -/
theorem strconv.digits_toDigitsCore (fuel n : Nat) (hf : n < fuel) (ds : List Char) (acc : Nat) :
    ∃ k, strconv.digits (Nat.toDigitsCore 10 fuel n ds) acc
      = strconv.digits ds (acc * 10 ^ k + n) := by
  induction fuel generalizing n ds acc with
  | zero => omega
  | succ fuel ih =>
    unfold Nat.toDigitsCore
    simp only
    by_cases h0 : n / 10 = 0
    · rw [if_pos h0]
      refine ⟨1, ?_⟩
      have hn : n % 10 = n := by omega
      rw [strconv.digits, strconv.digit_digitChar _ (by omega), hn]
      simp
    · rw [if_neg h0]
      obtain ⟨k, hk⟩ := ih (n / 10) (by omega) (Nat.digitChar (n % 10) :: ds) acc
      refine ⟨k + 1, ?_⟩
      rw [hk, strconv.digits, strconv.digit_digitChar _ (by omega)]
      simp only
      congr 1
      rw [pow_succ]
      have := Nat.div_add_mod n 10
      linarith

/-- The characters `Nat.toDigitsCore` puts before `ds` are digits. -/
theorem strconv.toDigitsCore_digit (fuel n : Nat) (ds : List Char) :
    ∀ c ∈ Nat.toDigitsCore 10 fuel n ds, c ∈ ds ∨ (strconv.digit c).isSome = true := by
  induction fuel generalizing n ds with
  | zero => intro c hc; exact Or.inl hc
  | succ fuel ih =>
    intro c hc
    unfold Nat.toDigitsCore at hc
    simp only at hc
    have hd : (strconv.digit (Nat.digitChar (n % 10))).isSome = true := by
      rw [strconv.digit_digitChar _ (by omega)]
      rfl
    by_cases h0 : n / 10 = 0
    · rw [if_pos h0] at hc
      rcases List.mem_cons.1 hc with rfl | hc
      · exact Or.inr hd
      · exact Or.inl hc
    · rw [if_neg h0] at hc
      rcases ih _ _ c hc with h | h
      · rcases List.mem_cons.1 h with rfl | h
        · exact Or.inr hd
        · exact Or.inl h
      · exact Or.inr h

/-- What `Nat.toDigitsCore` returns is not empty, unless it has neither fuel
nor digits to start from. -/
theorem strconv.toDigitsCore_ne_nil (fuel n : Nat) (ds : List Char)
    (h : ds ≠ [] ∨ 0 < fuel) : Nat.toDigitsCore 10 fuel n ds ≠ [] := by
  induction fuel generalizing n ds with
  | zero =>
    rcases h with h | h
    · exact h
    · omega
  | succ fuel ih =>
    unfold Nat.toDigitsCore
    simp only
    split_ifs
    · simp
    · exact ih _ _ (Or.inl (by simp))

/-- The decimal text of a natural number: digits only, at least one, and
`strconv.Atoi` reads the number back when it fits an `int`. -/
theorem strconv.Atoi_Itoa (n : Nat) (h : n < 2 ^ 63) :
    strconv.Atoi (strconv.Itoa (n : Int)) = some (n : Int) ∧
    (strconv.Itoa (n : Int)).data ≠ [] ∧
    ∀ c ∈ (strconv.Itoa (n : Int)).data, (strconv.digit c).isSome = true := by
  have hdata : (strconv.Itoa (n : Int)).data = Nat.toDigits 10 n := rfl
  have hne : Nat.toDigits 10 n ≠ [] := strconv.toDigitsCore_ne_nil _ _ _ (Or.inr (by omega))
  have hdig : ∀ c ∈ Nat.toDigits 10 n, (strconv.digit c).isSome = true := by
    intro c hc
    rcases strconv.toDigitsCore_digit _ _ _ c hc with h1 | h1
    · simp at h1
    · exact h1
  obtain ⟨k, hk⟩ := strconv.digits_toDigitsCore (n + 1) n (by omega) [] 0
  have hval : strconv.digits (Nat.toDigits 10 n) 0 = some n := by
    unfold Nat.toDigits
    rw [hk]
    simp [strconv.digits]
  refine ⟨?_, by rw [hdata]; exact hne, by rw [hdata]; exact hdig⟩
  unfold strconv.Atoi
  rw [hdata]
  cases hl : Nat.toDigits 10 n with
  | nil => exact absurd hl hne
  | cons c cs =>
    have hc : (strconv.digit c).isSome = true := hdig c (by rw [hl]; simp)
    have h1 : c ≠ '-' := by
      rintro rfl
      exact absurd hc (by decide)
    have h2 : c ≠ '+' := by
      rintro rfl
      exact absurd hc (by decide)
    simp only [h1, h2, if_false]
    rw [← hl, hval]
    simp only
    rw [if_pos (by exact_mod_cast h)]

/-- A string without white space is left alone by `strings.TrimSpace`. -/
theorem strings.TrimSpace_of_no_space (s : String)
    (h : ∀ c ∈ s.data, unicode.IsSpace c = false) : strings.TrimSpace s = s := by
  apply String.ext
  rw [strings.TrimSpace_data]
  have h1 : s.data.dropWhile unicode.IsSpace = s.data := by
    rw [List.dropWhile_eq_self_iff]
    intro hl
    simp [h _ (List.getElem_mem hl)]
  rw [h1, List.rdropWhile_eq_self_iff]
  intro hl
  simp [h _ (List.getLast_mem hl)]

/-- A digit is neither white space nor a hyphen. -/
theorem strconv.digit_not_space (c : Char) (h : (strconv.digit c).isSome = true) :
    unicode.IsSpace c = false ∧ c ≠ '-' ∧ c ≠ ',' := by
  unfold strconv.digit at h
  split_ifs at h with hc
  · constructor
    · unfold unicode.IsSpace
      simp only [Bool.or_eq_false_iff, Bool.and_eq_false_imp, decide_eq_true_eq,
        decide_eq_false_iff_not]
      omega
    · constructor
      · rintro rfl
        revert hc
        decide
      · rintro rfl
        revert hc
        decide
  · exact absurd h (by simp)

/-- Splitting at the first separator. -/
theorem strings.splitChars_append (sep : Char) (xs ys : List Char) (h : sep ∉ xs) :
    strings.splitChars sep (xs ++ sep :: ys) = xs :: strings.splitChars sep ys := by
  induction xs with
  | nil => simp [strings.splitChars]
  | cons x xs ih =>
    have hx : x ≠ sep := fun e => h (by simp [e])
    have hxs : sep ∉ xs := fun e => h (by simp [e])
    rw [List.cons_append, strings.splitChars, if_neg hx, ih hxs]

/-- A list without separator is one piece. -/
theorem strings.splitChars_of_not_mem (sep : Char) (ys : List Char) (h : sep ∉ ys) :
    strings.splitChars sep ys = [ys] := by
  induction ys with
  | nil => rfl
  | cons y ys ih =>
    have hy : y ≠ sep := fun e => h (by simp [e])
    have hys : sep ∉ ys := fun e => h (by simp [e])
    rw [strings.splitChars, if_neg hy, ih hys]

/-- The text `a-b` of two natural numbers that fit an `int` denotes the range
from `a` to `b`. -/
theorem segmentOf_range_text (a b : Nat) (ha : a < 2 ^ 63) (hb : b < 2 ^ 63) :
    segmentOf (strconv.Itoa (a : Int) ++ "-" ++ strconv.Itoa (b : Int))
      = some (.range (a : Int) (b : Int)) := by
  obtain ⟨ha1, ha2, ha3⟩ := strconv.Atoi_Itoa a ha
  obtain ⟨hb1, hb2, hb3⟩ := strconv.Atoi_Itoa b hb
  have hdata : (strconv.Itoa (a : Int) ++ "-" ++ strconv.Itoa (b : Int)).data
      = (strconv.Itoa (a : Int)).data ++ '-' :: (strconv.Itoa (b : Int)).data := by
    simp [String.data_append]
  have htrim : strings.TrimSpace (strconv.Itoa (a : Int) ++ "-" ++ strconv.Itoa (b : Int))
      = strconv.Itoa (a : Int) ++ "-" ++ strconv.Itoa (b : Int) := by
    apply strings.TrimSpace_of_no_space
    intro c hc
    rw [hdata, List.mem_append, List.mem_cons] at hc
    rcases hc with hc | rfl | hc
    · exact (strconv.digit_not_space c (ha3 c hc)).1
    · decide
    · exact (strconv.digit_not_space c (hb3 c hc)).1
  have hcont : strings.Contains
      (strconv.Itoa (a : Int) ++ "-" ++ strconv.Itoa (b : Int)) '-' = true := by
    unfold strings.Contains
    rw [hdata]
    simp
  have hsplit : strings.Split (strconv.Itoa (a : Int) ++ "-" ++ strconv.Itoa (b : Int)) '-'
      = [strconv.Itoa (a : Int), strconv.Itoa (b : Int)] := by
    unfold strings.Split
    rw [hdata, strings.splitChars_append _ _ _
        (fun h => (strconv.digit_not_space _ (ha3 _ h)).2.1 rfl),
      strings.splitChars_of_not_mem _ _
        (fun h => (strconv.digit_not_space _ (hb3 _ h)).2.1 rfl)]
    rfl
  have hta : strings.TrimSpace (strconv.Itoa (a : Int)) = strconv.Itoa (a : Int) :=
    strings.TrimSpace_of_no_space _ (fun c hc => (strconv.digit_not_space c (ha3 c hc)).1)
  have htb : strings.TrimSpace (strconv.Itoa (b : Int)) = strconv.Itoa (b : Int) :=
    strings.TrimSpace_of_no_space _ (fun c hc => (strconv.digit_not_space c (hb3 c hc)).1)
  unfold segmentOf
  simp only [htrim, hcont, hsplit, hta, htb, ha1, hb1, if_true]

/-- A piece that denotes a range whose bounds are out of order adds no port
and raises no error: the loop over the pieces goes on with the ports it
had. -/
theorem parsePortRange.segments_reversed (fuel : Nat) (piece : String) (rest : List String)
    (ports : List Int) (start stop : Int)
    (hs : segmentOf piece = some (.range start stop)) (hlt : stop < start) :
    parsePortRange.segments (fuel + 1) (piece :: rest) ports
      = parsePortRange.segments (fuel + 1) rest ports := by
  rw [parsePortRange.segments_range (fuel + 1) piece rest ports start stop hs,
    parsePortRange.loop, if_neg (by omega)]

/-- The text `a-b` holds no comma. -/
theorem range_text_no_comma (a b : Nat) (ha : a < 2 ^ 63) (hb : b < 2 ^ 63) :
    ',' ∉ (strconv.Itoa (a : Int) ++ "-" ++ strconv.Itoa (b : Int)).data := by
  obtain ⟨_, _, ha3⟩ := strconv.Atoi_Itoa a ha
  obtain ⟨_, _, hb3⟩ := strconv.Atoi_Itoa b hb
  intro hc
  simp only [String.data_append, List.mem_append] at hc
  rcases hc with (hc | hc) | hc
  · exact (strconv.digit_not_space _ (ha3 _ hc)).2.2 rfl
  · revert hc
    decide
  · exact (strconv.digit_not_space _ (hb3 _ hc)).2.2 rfl

/-- C16 fails as stated at start 3 and end -5: the segment written
`start-end` is `3--5`, which has two hyphens, and `parsePortRange` reports the
error "invalid port range: 3--5". A bound that does not fit an `int` is
reported too: `9223372036854775808-3` gives "invalid start port". -/
theorem parsePortRange_reversed_range_counterexample :
    (-5 : Int) < 3 ∧
    strconv.Itoa 3 ++ "-" ++ strconv.Itoa (-5) = "3--5" ∧
    parsePortRange 1 "3--5" = some (.error "invalid port range: 3--5") ∧
    parsePortRange 1 "9223372036854775808-3"
      = some (.error "invalid start port: 9223372036854775808") := by
  decide

/-- C16, amended. For every pair of non-negative integers `start > end` that
fit an `int` (`start` below `2^63`), the range segment written `start-end`
is read as the range from `start` to `end` and makes `parsePortRange` add no
port for the segment and raise no error: wherever the segment stands, the
loop over the segments goes on with the ports it had; alone the segment
parses to the empty list, and in front of further segments the result is that
of the further segments. `"5-3"` parses to the empty list and `"5-3,80"` to
`[80]`. -/
theorem parsePortRange_reversed_range (a b : Nat) (hba : b < a) (ha : a < 2 ^ 63) :
    segmentOf (strconv.Itoa (a : Int) ++ "-" ++ strconv.Itoa (b : Int))
      = some (.range (a : Int) (b : Int)) ∧
    (∀ (fuel : Nat) (rest : List String) (ports : List Int),
      parsePortRange.segments (fuel + 1)
          ((strconv.Itoa (a : Int) ++ "-" ++ strconv.Itoa (b : Int)) :: rest) ports
        = parsePortRange.segments (fuel + 1) rest ports) ∧
    (∀ fuel : Nat,
      parsePortRange (fuel + 1) (strconv.Itoa (a : Int) ++ "-" ++ strconv.Itoa (b : Int))
        = some (.ok [])) ∧
    (∀ (fuel : Nat) (more : String),
      parsePortRange (fuel + 1)
          (strconv.Itoa (a : Int) ++ "-" ++ strconv.Itoa (b : Int) ++ "," ++ more)
        = parsePortRange (fuel + 1) more) ∧
    parsePortRange 1 "5-3" = some (.ok []) ∧
    parsePortRange 1 "5-3,80" = some (.ok [80]) := by
  have hb : b < 2 ^ 63 := by omega
  have hseg := segmentOf_range_text a b ha hb
  have hcomma := range_text_no_comma a b ha hb
  have hlt : (b : Int) < (a : Int) := by exact_mod_cast hba
  refine ⟨hseg, ?_, ?_, ?_, by decide, by decide⟩
  · intro fuel rest ports
    exact parsePortRange.segments_reversed fuel _ rest ports _ _ hseg hlt
  · intro fuel
    unfold parsePortRange strings.Split
    rw [strings.splitChars_of_not_mem _ _ hcomma]
    simp only [List.map_cons, List.map_nil]
    rw [parsePortRange.segments_reversed fuel _ [] [] _ _ hseg hlt]
    rfl
  · intro fuel more
    unfold parsePortRange strings.Split
    have hdata : (strconv.Itoa (a : Int) ++ "-" ++ strconv.Itoa (b : Int) ++ "," ++ more).data
        = (strconv.Itoa (a : Int) ++ "-" ++ strconv.Itoa (b : Int)).data ++ ',' :: more.data := by
      simp [String.data_append]
    rw [hdata, strings.splitChars_append _ _ _ hcomma]
    simp only [List.map_cons]
    exact parsePortRange.segments_reversed fuel _ _ [] _ _ hseg hlt

/-- C16 amended, at start 5 and end 3: the segment is written `5-3`, it is
read as the range from 5 to 3, and in front of the segment 80 it adds
nothing. -/
theorem parsePortRange_reversed_range_witness :
    (3 : Nat) < 5 ∧ (5 : Nat) < 2 ^ 63 ∧
    strconv.Itoa ((5 : Nat) : Int) ++ "-" ++ strconv.Itoa ((3 : Nat) : Int) = "5-3" ∧
    segmentOf (strconv.Itoa ((5 : Nat) : Int) ++ "-" ++ strconv.Itoa ((3 : Nat) : Int))
      = some (.range 5 3) ∧
    parsePortRange 1
        (strconv.Itoa ((5 : Nat) : Int) ++ "-" ++ strconv.Itoa ((3 : Nat) : Int) ++ "," ++ "80")
      = parsePortRange 1 "80" ∧
    parsePortRange 1 "80" = some (.ok [80]) :=
  ⟨by decide, by decide, by decide,
    (parsePortRange_reversed_range 5 3 (by decide) (by decide)).1,
    (parsePortRange_reversed_range 5 3 (by decide) (by decide)).2.2.2.1 0 "80",
    by decide⟩

/-! ### Service detection, as `NetworkScan` uses it -/

/-- What the table `commonPorts` answers: nothing, or a name that is not
empty and that is "SSH" only for the port 22. -/
theorem commonPorts_lookup (port : Int) :
    commonPorts.lookup port = none ∨
    ∃ service, commonPorts.lookup port = some service ∧ service ≠ "" ∧
      (service = "SSH" → port = 22) := by
  by_cases h21 : port = 21
  · subst h21
    exact Or.inr ⟨"FTP", rfl, by decide, by decide⟩
  by_cases h22 : port = 22
  · subst h22
    exact Or.inr ⟨"SSH", rfl, by decide, by decide⟩
  by_cases h23 : port = 23
  · subst h23
    exact Or.inr ⟨"Telnet", rfl, by decide, by decide⟩
  by_cases h25 : port = 25
  · subst h25
    exact Or.inr ⟨"SMTP", rfl, by decide, by decide⟩
  by_cases h53 : port = 53
  · subst h53
    exact Or.inr ⟨"DNS", rfl, by decide, by decide⟩
  by_cases h80 : port = 80
  · subst h80
    exact Or.inr ⟨"HTTP", rfl, by decide, by decide⟩
  by_cases h110 : port = 110
  · subst h110
    exact Or.inr ⟨"POP3", rfl, by decide, by decide⟩
  by_cases h143 : port = 143
  · subst h143
    exact Or.inr ⟨"IMAP", rfl, by decide, by decide⟩
  by_cases h443 : port = 443
  · subst h443
    exact Or.inr ⟨"HTTPS", rfl, by decide, by decide⟩
  by_cases h465 : port = 465
  · subst h465
    exact Or.inr ⟨"SMTPS", rfl, by decide, by decide⟩
  by_cases h993 : port = 993
  · subst h993
    exact Or.inr ⟨"IMAPS", rfl, by decide, by decide⟩
  by_cases h995 : port = 995
  · subst h995
    exact Or.inr ⟨"POP3S", rfl, by decide, by decide⟩
  by_cases h3306 : port = 3306
  · subst h3306
    exact Or.inr ⟨"MySQL", rfl, by decide, by decide⟩
  by_cases h3389 : port = 3389
  · subst h3389
    exact Or.inr ⟨"RDP", rfl, by decide, by decide⟩
  by_cases h5432 : port = 5432
  · subst h5432
    exact Or.inr ⟨"PostgreSQL", rfl, by decide, by decide⟩
  by_cases h8080 : port = 8080
  · subst h8080
    exact Or.inr ⟨"HTTP-Proxy", rfl, by decide, by decide⟩
  left
  have e21 : (port == 21) = false := beq_eq_false_iff_ne.2 h21
  have e22 : (port == 22) = false := beq_eq_false_iff_ne.2 h22
  have e23 : (port == 23) = false := beq_eq_false_iff_ne.2 h23
  have e25 : (port == 25) = false := beq_eq_false_iff_ne.2 h25
  have e53 : (port == 53) = false := beq_eq_false_iff_ne.2 h53
  have e80 : (port == 80) = false := beq_eq_false_iff_ne.2 h80
  have e110 : (port == 110) = false := beq_eq_false_iff_ne.2 h110
  have e143 : (port == 143) = false := beq_eq_false_iff_ne.2 h143
  have e443 : (port == 443) = false := beq_eq_false_iff_ne.2 h443
  have e465 : (port == 465) = false := beq_eq_false_iff_ne.2 h465
  have e993 : (port == 993) = false := beq_eq_false_iff_ne.2 h993
  have e995 : (port == 995) = false := beq_eq_false_iff_ne.2 h995
  have e3306 : (port == 3306) = false := beq_eq_false_iff_ne.2 h3306
  have e3389 : (port == 3389) = false := beq_eq_false_iff_ne.2 h3389
  have e5432 : (port == 5432) = false := beq_eq_false_iff_ne.2 h5432
  have e8080 : (port == 8080) = false := beq_eq_false_iff_ne.2 h8080
  simp only [commonPorts, List.lookup, e21, e22, e23, e25, e53, e80, e110, e143, e443, e465, e993, e995, e3306, e3389, e5432, e8080]

/-- A name that begins with a blank is neither empty nor "SSH". -/
theorem probe_name_ne (name server : String) :
    name ++ " (" ++ server ++ ")" ≠ "" ∧ ("" ++ " (" ++ server ++ ")" ≠ "SSH") := by
  constructor
  · intro h
    have := congrArg String.length h
    simp only [String.length_append] at this
    have h2 : (" (" : String).length = 2 := by decide
    have h0 : ("" : String).length = 0 := by decide
    omega
  · intro h
    have := congrArg String.data h
    simp [String.data_append] at this

/-- The name `detectService` returns is not empty, and it is "SSH" only for
the port 22. -/
theorem detectService_name (env : Env) (target : String) (port timeout : Int) :
    detectService env target port timeout ≠ "" ∧
    (detectService env target port timeout = "SSH" → port = 22) := by
  unfold detectService
  rcases commonPorts_lookup port with h | ⟨service, h, h1, h2⟩
  · rw [h]
    simp only [Option.getD_none]
    have hU : ("Unknown" : String) ≠ "" ∧ (("Unknown" : String) = "SSH" → port = 22) :=
      ⟨by decide, fun e => absurd e (by decide)⟩
    by_cases hp : port = 80 ∨ port = 8080 ∨ port = 443 ∨ port = 8443
    · rw [if_pos hp]
      generalize env.serviceGet _ = res
      cases res with
      | error e => exact hU
      | ok resp => exact ⟨(probe_name_ne "" _).1, fun e => absurd e (probe_name_ne "" _).2⟩
    · rw [if_neg hp]
      exact hU
  · rw [h]
    exact ⟨h1, h2⟩

/-- The names of the findings of `checkServiceVulnerabilities`; the SSH
finding comes only for the service "SSH" on a port other than 22. -/
theorem checkServiceVulnerabilities_names (service : String) (port : Int) :
    ∀ v ∈ checkServiceVulnerabilities service port,
      v.Name = "FTP Anonymous Access" ∨ v.Name = "Web Server Exposed" ∨
      (v.Name = "SSH on Non-Standard Port" ∧ service = "SSH" ∧ port ≠ 22) := by
  intro v hv
  unfold checkServiceVulnerabilities at hv
  split_ifs at hv with h1 h2 h3 h4 <;>
    simp only [List.mem_singleton, List.not_mem_nil] at hv <;> subst hv
  · exact Or.inl rfl
  · exact Or.inr (Or.inr ⟨rfl, h2, h3⟩)
  · exact Or.inr (Or.inl rfl)

/-- What a worker of `NetworkScan` sends for a port that answers: the
findings of the service, stamped, then the "Open Port" finding. -/
theorem NetworkScan.worker_open (env : Env) (target : String) (timeout p : Int)
    (hd : env.dial (net.JoinHostPort target (strconv.Itoa p)) = true) :
    NetworkScan.worker env target timeout p
      = (checkServiceVulnerabilities (detectService env target p timeout) p).enum.map
          (fun kv =>
            { kv.2 with
              Target := target
              Location := "tcp/" ++ strconv.Itoa p
              Timestamp := env.now (.serviceFinding p kv.1) })
        ++ [NetworkScan.openPort env target p (detectService env target p timeout)] := by
  unfold NetworkScan.worker
  simp only [hd, if_true]
  rw [if_pos (detectService_name env target p timeout).1]
  rfl

/-- What a worker of `NetworkScan` sends for a port that does not answer:
nothing. -/
theorem NetworkScan.worker_closed (env : Env) (target : String) (timeout p : Int)
    (hd : env.dial (net.JoinHostPort target (strconv.Itoa p)) = false) :
    NetworkScan.worker env target timeout p = [] := by
  unfold NetworkScan.worker
  simp [hd]

/-- C17. For every target, port and probe outcome the service name that
`detectService` returns is not empty and is "SSH" only for the port 22; so
`checkServiceVulnerabilities (detectService ...) port`, as the worker of
`NetworkScan` composes them for an open port, never holds an "SSH on
Non-Standard Port" finding, and every "Open Port" finding a worker sends has
the description "Port p is open on target t with service: name", the name
being the one `detectService` returned. -/
theorem detectService_in_worker :
    (∀ (env : Env) (target : String) (port timeout : Int),
      detectService env target port timeout ≠ "") ∧
    (∀ (env : Env) (target : String) (port timeout : Int),
      detectService env target port timeout = "SSH" → port = 22) ∧
    (∀ (env : Env) (target : String) (port timeout : Int),
      ∀ v ∈ checkServiceVulnerabilities (detectService env target port timeout) port,
        v.Name ≠ "SSH on Non-Standard Port") ∧
    (∀ (env : Env) (target : String) (timeout p : Int),
      ∀ v ∈ NetworkScan.worker env target timeout p,
        v.Name ≠ "SSH on Non-Standard Port" ∧
        (strings.HasPrefix v.Name "Open Port" = true →
          v.Description = "Port " ++ strconv.Itoa p ++ " is open on target " ++ target
            ++ " with service: " ++ detectService env target p timeout)) ∧
    (∀ (env : Env) (target : String) (timeout p : Int),
      env.dial (net.JoinHostPort target (strconv.Itoa p)) = true →
      ∃ v ∈ NetworkScan.worker env target timeout p,
        v.Name = "Open Port " ++ strconv.Itoa p ∧
        v.Description = "Port " ++ strconv.Itoa p ++ " is open on target " ++ target
          ++ " with service: " ++ detectService env target p timeout) := by
  have hnossh : ∀ (env : Env) (target : String) (port timeout : Int),
      ∀ v ∈ checkServiceVulnerabilities (detectService env target port timeout) port,
        v.Name = "FTP Anonymous Access" ∨ v.Name = "Web Server Exposed" := by
    intro env target port timeout v hv
    rcases checkServiceVulnerabilities_names _ _ v hv with h | h | ⟨_, h1, h2⟩
    · exact Or.inl h
    · exact Or.inr h
    · exact absurd ((detectService_name env target port timeout).2 h1) h2
  refine ⟨fun env target port timeout => (detectService_name env target port timeout).1,
    fun env target port timeout => (detectService_name env target port timeout).2, ?_, ?_, ?_⟩
  · intro env target port timeout v hv
    rcases hnossh env target port timeout v hv with h | h <;> rw [h] <;> decide
  · intro env target timeout p v hv
    cases hd : env.dial (net.JoinHostPort target (strconv.Itoa p)) with
    | false =>
      rw [NetworkScan.worker_closed env target timeout p hd] at hv
      exact absurd hv (by simp)
    | true =>
      rw [NetworkScan.worker_open env target timeout p hd, List.mem_append] at hv
      rcases hv with hv | hv
      · obtain ⟨kv, hkv, rfl⟩ := List.mem_map.1 hv
        have hmem := List.snd_mem_of_mem_enumFrom hkv
        have hname := hnossh env target p timeout kv.2 hmem
        simp only
        rcases hname with h | h <;> rw [h] <;>
          exact ⟨by decide, fun e => absurd e (by decide)⟩
      · rw [List.mem_singleton] at hv
        subst hv
        refine ⟨?_, fun _ => rfl⟩
        intro h
        have := congrArg String.data h
        simp [NetworkScan.openPort, String.data_append] at this
  · intro env target timeout p hd
    refine ⟨NetworkScan.openPort env target p (detectService env target p timeout), ?_, rfl, rfl⟩
    rw [NetworkScan.worker_open env target timeout p hd]
    simp

/-- C17, at the port 22 of `host` in the sample world: the port answers, the
service is "SSH", no service finding comes with it, and the "Open Port"
finding names the service. -/
theorem detectService_in_worker_witness :
    Env.sample.dial (net.JoinHostPort "host" (strconv.Itoa 22)) = true ∧
    detectService Env.sample "host" 22 1 = "SSH" ∧
    checkServiceVulnerabilities (detectService Env.sample "host" 22 1) 22 = [] ∧
    ∃ v ∈ NetworkScan.worker Env.sample "host" 1 22,
      v.Name = "Open Port " ++ strconv.Itoa 22 ∧
      v.Description = "Port " ++ strconv.Itoa 22 ++ " is open on target " ++ "host"
        ++ " with service: " ++ detectService Env.sample "host" 22 1 :=
  ⟨by decide, by decide, by decide,
    detectService_in_worker.2.2.2.2 Env.sample "host" 1 22 (by decide)⟩

end FortGo
